import Mathlib

/-!
Formal model of the oas-js schema reference-resolution / dual-dialect compilation
engine and of its endpoint pipeline, together with proofs about the behaviour of
`schemaRefReplace`, `toOasSchema`, `toJsonschema`, `convertParamType`, the
`x-validator` keyword handler, and the `Endpoint` construction and parameter
operations.

JavaScript values are modelled by the inductive `JVal`.  Object identity (which
the schema registry keys on) is modelled by the `oid` tag carried by `vObj`;
function identity (which the compiler preserves through its serialize/revive
round trip) is modelled by the `fid` tag carried by `vFunc`.  Machine floats are
idealised as rationals; the decimal forms exercised here are exact.
-/

namespace OasJs

/-- A JavaScript value as it appears in schema trees: `null`, `undefined`,
booleans, numbers, strings, arrays, objects (with an identity tag `oid`), and
functions (with an identity tag `fid`). -/
inductive JVal where
  | vNull : JVal
  | vUndef : JVal
  | vBool (b : Bool) : JVal
  | vNum (q : Rat) : JVal
  | vStr (s : String) : JVal
  | vFunc (fid : Nat) : JVal
  | vArr (xs : List JVal) : JVal
  | vObj (oid : Nat) (fields : List (String × JVal)) : JVal
deriving Repr

open JVal

/-- Property read `o[k]`: the value of the first field named `k`. -/
def jGet : List (String × JVal) → String → Option JVal
  | [], _ => none
  | (k, v) :: rest, key => if k = key then some v else jGet rest key

/-- Property write `o[k] = val`: updates the field in place when present,
appends it otherwise (JavaScript property insertion order). -/
def jSet : List (String × JVal) → String → JVal → List (String × JVal)
  | [], key, val => [(key, val)]
  | (k, v) :: rest, key, val =>
      if k = key then (k, val) :: rest else (k, v) :: jSet rest key val

/-- Property deletion `delete o[k]`. -/
def jErase : List (String × JVal) → String → List (String × JVal)
  | [], _ => []
  | (k, v) :: rest, key =>
      if k = key then jErase rest key else (k, v) :: jErase rest key

/-- Models `Object.assign(target, src)` restricted to its effect on the field lists:
each field of `src` is written onto `target` in order. -/
def objAssign (target src : List (String × JVal)) : List (String × JVal) :=
  src.foldl (fun acc p => jSet acc p.1 p.2) target

/-- The JavaScript `typeof` operator (note `typeof null` is `"object"`, and
arrays are `"object"` as well). -/
def jsTypeof : JVal → String
  | vNull => "object"
  | vUndef => "undefined"
  | vBool _ => "boolean"
  | vNum _ => "number"
  | vStr _ => "string"
  | vFunc _ => "function"
  | vArr _ => "object"
  | vObj _ _ => "object"

/-- JavaScript truthiness of a value. -/
def jsTruthy : JVal → Bool
  | vNull => false
  | vUndef => false
  | vBool b => b
  | vNum q => decide (q ≠ 0)
  | vStr s => decide (s ≠ "")
  | vFunc _ => true
  | vArr _ => true
  | vObj _ _ => true

/-- Truthiness of a possibly absent property (`o.k` of a missing key is
`undefined`, which is falsy). -/
def jsTruthyOpt : Option JVal → Bool
  | none => false
  | some v => jsTruthy v

/-- JavaScript string coercion, to the extent the compiler exercises it: only
the string case is reached by the code modelled here, the others are
best-effort renderings. -/
def jsToString : JVal → String
  | vStr s => s
  | vNull => "null"
  | vUndef => "undefined"
  | vBool b => if b then "true" else "false"
  | vNum q => toString q
  | vFunc _ => "function"
  | vArr _ => ""
  | vObj _ _ => "[object Object]"

/-- String coercion of a possibly absent property. -/
def jsToStringOpt : Option JVal → String
  | none => "undefined"
  | some v => jsToString v

/-- The test `value.startsWith('\x7b') && value.endsWith('\x7d')` performed on
string-valued `$ref` nodes (utils.js line 152). -/
def braceDelimited (s : String) : Bool :=
  s.data.head? == some '{' && s.data.getLast? == some '}'

/-- The slice `v.slice(1, v.length - 1)` used to strip the delimiters from a
reference token (utils.js lines 150 and 153). -/
def sliceEnds (s : String) : String :=
  String.mk (s.data.drop 1).dropLast

/-- The schema registry `_schemaObjectsToNames` (openapi.js line 89): a map
from schema object identity to the brace-delimited token of its name. -/
abbrev Registry := List (Nat × String)

/-- Identity-based registry lookup (`Map.has` / `Map.get`). -/
def regFind : Registry → Nat → Option String
  | [], _ => none
  | (i, tok) :: rest, oid => if i = oid then some tok else regFind rest oid

/-- Registry construction as the OpenAPI constructor performs it:
`new Map(names.map(n => [schemas[n], brace(n)]))`, i.e. each registered object
identity is associated with the token `"\x7b" ++ name ++ "\x7d"`. -/
def mkRegistry (l : List (Nat × String)) : Registry :=
  l.map (fun p => (p.1, "\x7b" ++ p.2 ++ "\x7d"))

/-- The placeholder string the replacer substitutes for the `id`-th collected
function (utils.js line 159). -/
def funcPlaceholder (i : Nat) : String :=
  "x-oas-function: " ++ toString i

/-- Models `value.startsWith('x-oas-function: ')` combined with `value.substring(16)`
(utils.js lines 164-165); returns the substring after the marker. -/
def funcPlaceholderRest (s : String) : Option String :=
  if s.data.take 16 = "x-oas-function: ".data then some (String.mk (s.data.drop 16))
  else none

/-- Models `parseInt` on the digit strings produced by `funcPlaceholder`: parses a
leading run of decimal digits, `none` (NaN) when there is none.  (JavaScript
`parseInt` additionally skips whitespace and accepts a sign; the generated
placeholder suffixes are bare digit runs.) -/
def parseIntLeading (s : String) : Option Nat :=
  let ds := s.data.takeWhile (fun c => c.isDigit)
  if ds.isEmpty then none
  else some (ds.foldl (fun a c => a * 10 + (c.toNat - 48)) 0)

/-- The replacer's handling of a value found under the key `'$ref'`
(utils.js lines 144-160): an object-typed value is resolved through the
registry by identity (throwing when absent — note `typeof null` and arrays are
object-typed and can never be registered), a brace-delimited string token is
rewritten directly, a function is pushed onto the side table, and anything
else passes through (an `undefined` value makes JSON.stringify drop the
field, signalled here by `none`). -/
def refReplaceValue (reg : Registry) (rf : String → String) (v : JVal)
    (funcs : List Nat) : Except String (Option JVal × List Nat) :=
  match v with
  | vObj tid _ =>
      match regFind reg tid with
      | some tok => .ok (some (vStr (rf (sliceEnds tok))), funcs)
      | none => .error "missing required reference to this object"
  | vArr _ => .error "missing required reference to this object"
  | vNull => .error "missing required reference to this object"
  | vStr s =>
      if braceDelimited s then .ok (some (vStr (rf (sliceEnds s))), funcs)
      else .ok (some (vStr s), funcs)
  | vFunc fid => .ok (some (vStr (funcPlaceholder funcs.length)), funcs ++ [fid])
  | vUndef => .ok (none, funcs)
  | vBool b => .ok (some (vBool b), funcs)
  | vNum q => .ok (some (vNum q), funcs)

mutual

/-- The `JSON.stringify(schema, replacer)` pass of `schemaRefReplace`
(utils.js lines 141-162) on a value in a non-`$ref` position: functions are
replaced by placeholder strings and collected on the `funcs` side table,
arrays and objects are copied recursively (the copy's object identity is the
reserved tag `0`: freshly parsed objects never take part in a registry
lookup), scalars pass through. -/
def serVal (reg : Registry) (rf : String → String) :
    JVal → List Nat → Except String (JVal × List Nat)
  | vFunc fid, funcs => .ok (vStr (funcPlaceholder funcs.length), funcs ++ [fid])
  | vArr xs, funcs =>
      match serElems reg rf xs funcs with
      | .ok (ys, funcs1) => .ok (vArr ys, funcs1)
      | .error e => .error e
  | vObj _ flds, funcs =>
      match serFields reg rf flds funcs with
      | .ok (gs, funcs1) => .ok (vObj 0 gs, funcs1)
      | .error e => .error e
  | vNull, funcs => .ok (vNull, funcs)
  | vUndef, funcs => .ok (vUndef, funcs)
  | vBool b, funcs => .ok (vBool b, funcs)
  | vNum q, funcs => .ok (vNum q, funcs)
  | vStr s, funcs => .ok (vStr s, funcs)

/-- Serialization of an object's fields: the replacer's `$ref` logic applies
to fields named `'$ref'`, all other fields are serialized recursively; a field
whose replaced value is `undefined` is dropped, as `JSON.stringify` does. -/
def serFields (reg : Registry) (rf : String → String) :
    List (String × JVal) → List Nat → Except String (List (String × JVal) × List Nat)
  | [], funcs => .ok ([], funcs)
  | (k, v) :: rest, funcs =>
      if k = "$ref" then
        match refReplaceValue reg rf v funcs with
        | .error e => .error e
        | .ok (res, funcs1) =>
            match serFields reg rf rest funcs1 with
            | .error e => .error e
            | .ok (gs, funcs2) =>
                .ok ((match res with
                      | some y => [(k, y)]
                      | none => []) ++ gs, funcs2)
      else
        match serVal reg rf v funcs with
        | .error e => .error e
        | .ok (y, funcs1) =>
            match serFields reg rf rest funcs1 with
            | .error e => .error e
            | .ok (gs, funcs2) =>
                .ok ((match y with
                      | vUndef => []
                      | y => [(k, y)]) ++ gs, funcs2)

/-- Serialization of the elements of an array (an `undefined` element
serializes to `null`, as `JSON.stringify` does). -/
def serElems (reg : Registry) (rf : String → String) :
    List JVal → List Nat → Except String (List JVal × List Nat)
  | [], funcs => .ok ([], funcs)
  | x :: rest, funcs =>
      match serVal reg rf x funcs with
      | .error e => .error e
      | .ok (y, funcs1) =>
          match serElems reg rf rest funcs1 with
          | .error e => .error e
          | .ok (ys, funcs2) =>
              .ok ((match y with
                    | vUndef => vNull
                    | y => y) :: ys, funcs2)

end

mutual

/-- The reviver pass of `JSON.parse(text, reviver)` (utils.js lines 163-168):
a string bearing the placeholder marker is replaced by the function stored at
the parsed index of the side table (an out-of-range or unparsable index reads
`undefined`, which the reviver then returns, deleting the property). -/
def reviveVal (funcs : List Nat) : JVal → JVal
  | vStr s =>
      match funcPlaceholderRest s with
      | some rest =>
          match parseIntLeading rest with
          | some i =>
              match funcs[i]? with
              | some fid => vFunc fid
              | none => vUndef
          | none => vUndef
      | none => vStr s
  | vArr xs => vArr (reviveElems funcs xs)
  | vObj oid flds => vObj oid (reviveFields funcs flds)
  | vNull => vNull
  | vUndef => vUndef
  | vBool b => vBool b
  | vNum q => vNum q
  | vFunc fid => vFunc fid

/-- Reviving the fields of an object; a field revived to `undefined` is
removed. -/
def reviveFields (funcs : List Nat) :
    List (String × JVal) → List (String × JVal)
  | [] => []
  | (k, v) :: rest =>
      (match reviveVal funcs v with
       | vUndef => []
       | y => [(k, y)]) ++ reviveFields funcs rest

/-- Reviving the elements of an array. -/
def reviveElems (funcs : List Nat) : List JVal → List JVal
  | [] => []
  | x :: rest => reviveVal funcs x :: reviveElems funcs rest

end

/-- Models `schemaRefReplace` (utils.js lines 141-170): one
`JSON.parse(JSON.stringify(schema, replacer), reviver)` round trip that
rewrites every `$ref` node through `replaceFunc` (resolving object references
through the registry), deep-copies the structure, and re-attaches the
collected function values by reference.  A root value of `undefined`
stringifies to no JSON text at all, which `JSON.parse` rejects. -/
def schemaRefReplace (reg : Registry) (rf : String → String) (schema : JVal) :
    Except String JVal :=
  match serVal reg rf schema [] with
  | .error e => .error e
  | .ok (vUndef, _) => .error "Unexpected token u in JSON at position 0"
  | .ok (copy, funcs) => .ok (reviveVal funcs copy)

/-- The own fields of an object value (the own enumerable properties
`Object.assign` copies; primitives contribute none of the forms exercised
here). -/
def objFields : JVal → List (String × JVal)
  | vObj _ gs => gs
  | _ => []

/-- Models `Object.assign(o.properties || \x7b\x7d, o.patternProperties)`
(utils.js line 247): merges the pattern-keyed sub-schemas into the existing
`properties` object, or into a fresh object when `properties` is absent or
not an object. -/
def mergeProps (props : Option JVal) (pv : JVal) : JVal :=
  match props with
  | some (vObj poid qfs) => vObj poid (objAssign qfs (objFields pv))
  | _ => vObj 0 (objAssign [] (objFields pv))

/-- Models `(o.description ? o.description + ' - ' : '') + '(nullable)'`
(utils.js line 255). -/
def nullableDesc (d : Option JVal) : JVal :=
  vStr ((if jsTruthyOpt d then jsToStringOpt d ++ " - " else "") ++ "(nullable)")

/-- The effect of the `forAllRecursiveKeys` callback of `toOasSchema`
(utils.js lines 241-267) for one visited key `k` of an object whose current
fields are `flds`: `dependencies` and `x-validator` are deleted,
`patternProperties` is merged into `properties` via `Object.assign` and
deleted, `const` becomes the single-element `enum`, and `x-nullable` becomes
an `allOf` of the wrapped schema and a nullable flag while a `(nullable)`
marker is appended to the description. -/
def oasStepOne (flds : List (String × JVal)) (k : String) :
    List (String × JVal) :=
  match k with
  | "dependencies" => jErase flds "dependencies"
  | "patternProperties" =>
      match jGet flds "patternProperties" with
      | some pv =>
          jErase
            (jSet flds "properties" (mergeProps (jGet flds "properties") pv))
            "patternProperties"
      | none => flds
  | "const" =>
      match jGet flds "const" with
      | some cv => jErase (jSet flds "enum" (vArr [cv])) "const"
      | none => flds
  | "x-nullable" =>
      match jGet flds "x-nullable" with
      | some nv =>
          jErase
            (jSet (jSet flds "description" (nullableDesc (jGet flds "description")))
              "allOf" (vArr [nv, vObj 0 [("nullable", vBool true)]]))
            "x-nullable"
      | none => flds
  | "x-validator" => jErase flds "x-validator"
  | _ => flds

/-- One object's pass of `forAllRecursiveKeys` for the documentation dialect:
the callback of `oasStepOne` is applied for every property name of the
snapshot `Object.getOwnPropertyNames(o)`, in order, each application seeing
the mutations of the previous ones. -/
def oasStep (flds : List (String × JVal)) : List (String × JVal) :=
  (flds.map Prod.fst).foldl oasStepOne flds

/-- The effect of the `forAllRecursiveKeys` callback of `toJsonschema`
(utils.js lines 279-288) for one visited key: only `x-nullable` is handled,
becoming a `oneOf` of the wrapped schema and an explicit null-type schema. -/
def jsStepOne (flds : List (String × JVal)) (k : String) :
    List (String × JVal) :=
  match k with
  | "x-nullable" =>
      match jGet flds "x-nullable" with
      | some nv =>
          jErase
            (jSet flds "oneOf"
              (vArr [nv, vObj 0 [("title", vStr "Null"), ("type", vStr "null")]]))
            "x-nullable"
      | none => flds
  | _ => flds

/-- One object's pass of `forAllRecursiveKeys` for the validation dialect. -/
def jsStep (flds : List (String × JVal)) : List (String × JVal) :=
  (flds.map Prod.fst).foldl jsStepOne flds

mutual

/-- The keyword-lowering walk of `toOasSchema`: arrays elementwise, and for
every object, its children first and then the per-object keyword rewriting
(`forAllRecursiveKeys` descends into the captured child value after the
callback mutated the object, so the wrapper nodes the callback creates are
never themselves rewritten; on the trees modelled here that is equivalent to
processing children first and applying the rewriting afterwards). -/
def oasWalk : JVal → JVal
  | vArr xs => vArr (oasWalkElems xs)
  | vObj oid flds => vObj oid (oasStep (oasWalkFields flds))
  | vNull => vNull
  | vUndef => vUndef
  | vBool b => vBool b
  | vNum q => vNum q
  | vStr s => vStr s
  | vFunc fid => vFunc fid

/-- Elementwise walk of an array for the documentation dialect. -/
def oasWalkElems : List JVal → List JVal
  | [] => []
  | x :: rest => oasWalk x :: oasWalkElems rest

/-- Fieldwise walk of an object's children for the documentation dialect. -/
def oasWalkFields : List (String × JVal) → List (String × JVal)
  | [] => []
  | (k, v) :: rest => (k, oasWalk v) :: oasWalkFields rest

end

mutual

/-- The keyword-lowering walk of `toJsonschema`. -/
def jsWalk : JVal → JVal
  | vArr xs => vArr (jsWalkElems xs)
  | vObj oid flds => vObj oid (jsStep (jsWalkFields flds))
  | vNull => vNull
  | vUndef => vUndef
  | vBool b => vBool b
  | vNum q => vNum q
  | vStr s => vStr s
  | vFunc fid => vFunc fid

/-- Elementwise walk of an array for the validation dialect. -/
def jsWalkElems : List JVal → List JVal
  | [] => []
  | x :: rest => jsWalk x :: jsWalkElems rest

/-- Fieldwise walk of an object's children for the validation dialect. -/
def jsWalkFields : List (String × JVal) → List (String × JVal)
  | [] => []
  | (k, v) :: rest => (k, jsWalk v) :: jsWalkFields rest

end

/-- Models `toOasSchema(schema, spec)` (utils.js lines 239-269): resolve and rewrite
references to the documentation pointer syntax `#/components/schemas/Name`,
then lower the vendor keywords for a documentation consumer. -/
def toOasSchema (schema : JVal) (reg : Registry) : Except String JVal :=
  match schemaRefReplace reg (fun n => "#/components/schemas/" ++ n) schema with
  | .ok s => .ok (oasWalk s)
  | .error e => .error e

/-- Models `toJsonschema(schema, spec)` (utils.js lines 277-290): resolve and rewrite
references to the validation pointer syntax `/Name`, then lower `x-nullable`
for the runtime validator. -/
def toJsonschema (schema : JVal) (reg : Registry) : Except String JVal :=
  match schemaRefReplace reg (fun n => "/" ++ n) schema with
  | .ok s => .ok (jsWalk s)
  | .error e => .error e

/-- Whether an object-typed `$ref` value fails to resolve: a `$ref` whose
value is an unregistered object, an array, or `null` (all object-typed in
JavaScript) is unresolvable. -/
def refValueUnreg (reg : Registry) : JVal → Bool
  | vObj tid _ => (regFind reg tid).isNone
  | vArr _ => true
  | vNull => true
  | _ => false

mutual

/-- Whether a schema value contains, at a position the serializer visits, a
`$ref` field whose object-typed value is unregistered (the serializer does not
descend into the target of a resolved reference). -/
def hasUnregRef (reg : Registry) : JVal → Bool
  | vArr xs => hasUnregRefElems reg xs
  | vObj _ flds => hasUnregRefFields reg flds
  | _ => false

/-- Field list form of `hasUnregRef`. -/
def hasUnregRefFields (reg : Registry) : List (String × JVal) → Bool
  | [] => false
  | (k, v) :: rest =>
      (if k = "$ref" then refValueUnreg reg v else hasUnregRef reg v)
        || hasUnregRefFields reg rest

/-- Element list form of `hasUnregRef`. -/
def hasUnregRefElems (reg : Registry) : List JVal → Bool
  | [] => false
  | x :: rest => hasUnregRef reg x || hasUnregRefElems reg rest

end

mutual

/-- The identities of the function values embedded in a value, in order. -/
def funcIds : JVal → List Nat
  | vFunc fid => [fid]
  | vArr xs => funcIdsElems xs
  | vObj _ flds => funcIdsFields flds
  | _ => []

/-- Field list form of `funcIds`. -/
def funcIdsFields : List (String × JVal) → List Nat
  | [] => []
  | (_, v) :: rest => funcIds v ++ funcIdsFields rest

/-- Element list form of `funcIds`. -/
def funcIdsElems : List JVal → List Nat
  | [] => []
  | x :: rest => funcIds x ++ funcIdsElems rest

end

mutual

/-- The identities of the object nodes of a value, in order (the copies the
serializer produces all carry the reserved fresh-copy identity `0`). -/
def objIds : JVal → List Nat
  | vObj oid flds => oid :: objIdsFields flds
  | vArr xs => objIdsElems xs
  | _ => []

/-- Field list form of `objIds`. -/
def objIdsFields : List (String × JVal) → List Nat
  | [] => []
  | (_, v) :: rest => objIds v ++ objIdsFields rest

/-- Element list form of `objIds`. -/
def objIdsElems : List JVal → List Nat
  | [] => []
  | x :: rest => objIds x ++ objIdsElems rest

end

/-- Whether an `Except` result is a success. -/
def exOk {α : Type} : Except String α → Bool
  | .ok _ => true
  | .error _ => false

/-- Models `item.toLowerCase()` — characterwise lowering of the string (the
parameter literals exercised are ASCII). -/
def jsToLower (s : String) : String :=
  String.mk (s.data.map Char.toLower)

/-- Whitespace trimming of both ends of a string, as JavaScript ToNumber
performs before parsing a numeric literal. -/
def jsTrim (s : String) : String :=
  String.mk (((s.data.dropWhile Char.isWhitespace).reverse.dropWhile
    Char.isWhitespace).reverse)

/-- Digit-run value (decimal). -/
def digitsToNat (ds : List Char) : Nat :=
  ds.foldl (fun a c => a * 10 + (c.toNat - 48)) 0

/-- Whether every character of the list is a decimal digit. -/
def allDigits (ds : List Char) : Bool :=
  ds.all (fun c => c.isDigit)

/-- Parses the mantissa of a decimal numeric literal: `digits [. digits]` or
`. digits`, returning its exact value and the unconsumed rest. -/
def parseMantissa (cs : List Char) : Option (Rat × List Char) :=
  let ip := cs.takeWhile (fun c => c.isDigit)
  let rest1 := cs.drop ip.length
  match rest1 with
  | '.' :: rest2 =>
      let fp := rest2.takeWhile (fun c => c.isDigit)
      let rest3 := rest2.drop fp.length
      if ip.isEmpty && fp.isEmpty then none
      else some ((digitsToNat ip : Rat) + (digitsToNat fp : Rat) / (10 : Rat) ^ fp.length, rest3)
  | _ =>
      if ip.isEmpty then none
      else some ((digitsToNat ip : Rat), rest1)

/-- Parses an optional exponent part `e|E [sign] digits` occupying the whole
rest of the literal; no exponent part means exponent `0`. -/
def parseExpPart : List Char → Option Int
  | [] => some 0
  | c :: rest =>
      if c == 'e' || c == 'E' then
        match rest with
        | '-' :: ds =>
            if !ds.isEmpty && allDigits ds then some (-(digitsToNat ds : Int)) else none
        | '+' :: ds =>
            if !ds.isEmpty && allDigits ds then some ((digitsToNat ds : Int)) else none
        | ds =>
            if !ds.isEmpty && allDigits ds then some ((digitsToNat ds : Int)) else none
      else none

/-- The numeric coercion `item * 1` of a string (JavaScript ToNumber),
modelled for decimal numeric literals: surrounding whitespace is trimmed, the
empty string is `0`, an optional sign precedes a decimal mantissa and an
optional exponent; anything else is NaN (`none`).  (The hexadecimal and
`Infinity` forms JavaScript also accepts are outside the decimals the
converter is used with and are not modelled.) -/
def jsStrToNum (s : String) : Option Rat :=
  let t := jsTrim s
  if t = "" then some 0
  else
    let signed : Bool × List Char :=
      match t.data with
      | '-' :: rest => (true, rest)
      | '+' :: rest => (false, rest)
      | cs => (false, cs)
    match parseMantissa signed.2 with
    | none => none
    | some (m, rest) =>
        match parseExpPart rest with
        | none => none
        | some e =>
            let mag := if 0 ≤ e then m * (10 : Rat) ^ e.toNat else m / (10 : Rat) ^ (-e).toNat
            some (if signed.1 then -mag else mag)

/-- The result of `convertParamType`: `undefined`, a number, a boolean, or the
unchanged string. -/
inductive ConvResult where
  | undef : ConvResult
  | num (q : Rat) : ConvResult
  | bool (b : Bool) : ConvResult
  | str (s : String) : ConvResult
deriving DecidableEq, Repr

/-- The three throw sites of `convertParamType` (the thrown value is
`\x7bparam, item\x7d` at each; the constructors record which check threw). -/
inductive ConvErr where
  | nanErr (item : String) : ConvErr
  | boolErr (item : String) : ConvErr
  | unknownType (ptype : String) (item : String) : ConvErr
deriving DecidableEq, Repr

/-- Models `convertParamType(param, item)` (utils.js lines 210-231): a falsy `item`
(absent or empty) returns `undefined` before the type switch; `'number'`
coerces numerically and throws on NaN; `'bool'` accepts exactly the
case-insensitive literals `true`/`false`; `'string'` passes through; any
other declared type falls through to the trailing throw. -/
def convertParamType (ptype : String) (item : Option String) :
    Except ConvErr ConvResult :=
  match item with
  | none => .ok .undef
  | some s =>
      if s = "" then .ok .undef
      else if ptype = "number" then
        match jsStrToNum s with
        | some q => .ok (.num q)
        | none => .error (.nanErr s)
      else if ptype = "bool" then
        let b := jsToLower s
        if b = "true" then .ok (.bool true)
        else if b = "false" then .ok (.bool false)
        else .error (.boolErr s)
      else if ptype = "string" then .ok (.str s)
      else .error (.unknownType ptype s)

/-- The primitive-type guard of `Endpoint.parameter` (endpoint.js line 122):
the call proceeds exactly when the declared conversion type is `'string'`,
`'number'`, or `'bool'`. -/
def paramTypeOk (t : String) : Bool :=
  t == "string" || t == "number" || t == "bool"

/-! ### The `x-validator` keyword handler (openapi.js lines 59-87) -/

/-- The observable behaviour of one custom-validator function invocation: the
errors it adds through its `ValidatorResult` receiver (`this.addError`), and
its return value (`vUndef` models returning `undefined`). -/
structure FuncBehavior where
  recErrors : List JVal
  ret : JVal

/-- Name registry lookup on an association list. -/
def lookupName : List (String × Nat) → String → Option Nat
  | [], _ => none
  | (k, v) :: rest, key => if k = key then some v else lookupName rest key

/-- Environment of a validation call: the behaviour of each function identity
for the instance under validation, and the `validatorFuncs` name registry of
the owning OpenAPI object (each registered name maps to a function). -/
structure XEnv where
  funcEval : Nat → FuncBehavior
  validatorFuncs : List (String × Nat)

/-- The errors one entry of the normalized `x-validator` list contributes to
the accumulator (openapi.js lines 65-85): a registered name or a function is
invoked (its receiver-added errors first, then its non-`undefined` return
value as an error); an unregistered name adds a configuration error naming it;
`undefined` adds nothing; anything else adds a configuration error naming its
`typeof`. -/
def xEntryErrors (env : XEnv) : JVal → List JVal
  | vStr name =>
      match lookupName env.validatorFuncs name with
      | some fid =>
          let b := env.funcEval fid
          b.recErrors ++ (match b.ret with
            | vUndef => []
            | r => [r])
      | none =>
          [vStr ("x-validator strings (" ++ name
            ++ ") must reference a defined customValidation function on the OpenAPI object")]
  | vFunc fid =>
      let b := env.funcEval fid
      b.recErrors ++ (match b.ret with
        | vUndef => []
        | r => [r])
  | vUndef => []
  | v =>
      [vStr ("x-validator type (" ++ jsTypeof v
        ++ ") must be either a function, a string, or an array of both")]

/-- The `'x-validator'` attribute handler (openapi.js lines 59-87): the
keyword's value is normalized to a list (a bare entry becomes a singleton),
every entry is evaluated in order with no short-circuiting, and the
accumulated error list of the `ValidatorResult` is returned. -/
def xValidatorRun (env : XEnv) (xv : JVal) : List JVal :=
  (match xv with
   | vArr xs => xs
   | v => [v]).foldl (fun acc v => acc ++ xEntryErrors env v) []

/-! ### Endpoint construction, parameters, and the call pipeline -/

/-- The specification state an endpoint constructor can observe and mutate:
the `spec.endpoints` table (operationId to endpoint) and the document
`spec.doc` (which only `define` writes to). -/
structure SpecState where
  endpoints : List (String × Nat)
  doc : JVal

/-- Endpoint construction (endpoint.js lines 17-83): after initializing the
endpoint's own fields, the constructor throws on a duplicate operationId and
otherwise registers the endpoint; the returned pair is the construction
outcome together with the specification state at return or throw time. -/
def endpointNew (st : SpecState) (operationId : String) (eid : Nat) :
    Except String Unit × SpecState :=
  match lookupName st.endpoints operationId with
  | some _ =>
      (.error ("duplicate endpoint definition for operationId: " ++ operationId), st)
  | none =>
      (.ok (), { st with endpoints := st.endpoints ++ [(operationId, eid)] })

/-- One entry of `this.doc.parameters` (endpoint.js lines 126-132). -/
structure ParamDoc where
  name : String
  description : String
  loc : String
  required : Bool
  schema : JVal
deriving Repr

/-- One typed parameter record (endpoint.js lines 125-135). -/
structure TypedParam where
  doc : ParamDoc
  type : String
  jsonschema : JVal
deriving Repr

/-- The parameter-related state of one endpoint: its operationId, the
documentation parameter list `this.doc.parameters`, and the three location
buckets `_query`, `_params`, `_headers`. -/
structure EndpointState where
  opId : String
  docParameters : List ParamDoc
  query : List TypedParam
  params : List TypedParam
  headers : List TypedParam
deriving Repr

/-- Models `Endpoint.parameter(loc, name, description, required, schema, type)`
(endpoint.js lines 121-152): the primitive-type guard throws first; the
schema is compiled into both dialects; the documentation form is appended to
the operation's parameter list and the typed record is pushed onto the bucket
matching the location, an unknown location throwing the configuration
error of the switch's default arm. -/
def endpointParameter (reg : Registry) (est : EndpointState)
    (loc name description : String) (required : Bool) (schema : JVal)
    (type : String) : Except String EndpointState :=
  if paramTypeOk type then
    match toOasSchema schema reg with
    | .error e => .error e
    | .ok oasS =>
        match toJsonschema schema reg with
        | .error e => .error e
        | .ok jsS =>
            let pd : ParamDoc := ⟨name, description, loc, required, oasS⟩
            let tp : TypedParam := ⟨pd, type, jsS⟩
            let est1 := { est with docParameters := est.docParameters ++ [pd] }
            if loc = "query" then .ok { est1 with query := est1.query ++ [tp] }
            else if loc = "path" then .ok { est1 with params := est1.params ++ [tp] }
            else if loc = "header" then .ok { est1 with headers := est1.headers ++ [tp] }
            else .error ("value for \x27loc\x27 should be one of \x7bquery, path, header\x7d for parameter "
              ++ name ++ " in " ++ est.opId)
  else
    .error ("invalid type for parameter " ++ name ++ " in " ++ loc ++ " of "
      ++ est.opId ++ " (must be one of \x7bstring,number,bool\x7d)")

/-- A `Response` record (utils.js lines 46-65). -/
structure RespRec where
  status : Nat
  body : JVal
  headers : List (String × JVal)
  ignore : Bool
deriving Repr

/-- Models `new Response(status, body)` with default arguments: empty headers and
`ignore` false (utils.js lines 55-64). -/
def mkResponse (status : Nat) (body : JVal) : RespRec :=
  ⟨status, body, [], false⟩

/-- The outcome of awaiting the user handler `this.func(data)`: it returned a
`Response` instance, returned any other value, threw a `JSONValidationError`,
or threw any other error. -/
inductive HandlerOutcome where
  | retResponse (r : RespRec) : HandlerOutcome
  | ret (v : JVal) : HandlerOutcome
  | throwValidation (e : JVal) : HandlerOutcome
  | throwOther (e : JVal) : HandlerOutcome

/-- Models `Endpoint.call` (src/unnamed/part_000 lines 511-553), as a function of
the handler outcome: a returned `Response` instance is used as the response
directly; any other returned value becomes the body of a fresh 200 response;
a thrown `JSONValidationError` becomes a 400 response with the error as body;
any other thrown error becomes a 500 response with a generic body and is
remembered in `err`.  When `err` is still unset, the response body is checked
against the declared response schema of the actual status (`respCheck`
abstracts the schema lookup plus jsonschema validation, returning the
validation error if any); finally `spec.responseAndErrorHandler` receives the
response and `err`, the pair returned here.  (The transport write of lines
533-540 has no effect on this pair and is not modelled.) -/
def endpointCall (outcome : HandlerOutcome)
    (respCheck : Nat → JVal → Option JVal) : RespRec × Option JVal :=
  let tryPhase : RespRec × Option JVal :=
    match outcome with
    | .retResponse r => (r, none)
    | .ret v => (mkResponse 200 v, none)
    | .throwValidation e => (mkResponse 400 e, none)
    | .throwOther e => (mkResponse 500 (vStr "internal server error"), some e)
  let err : Option JVal :=
    match tryPhase.2 with
    | some e => some e
    | none => respCheck tryPhase.1.status tryPhase.1.body
  (tryPhase.1, err)

/-! ### Basic lemmas about the property-list operations -/

theorem jGet_jSet_same (flds : List (String × JVal)) (k : String) (v : JVal) :
    jGet (jSet flds k v) k = some v := by
  induction flds with
  | nil => simp [jSet, jGet]
  | cons p rest ih =>
      obtain ⟨k1, v1⟩ := p
      by_cases h : k1 = k
      · simp [jSet, jGet, h]
      · simp [jSet, jGet, h, ih]

theorem jGet_jSet_other (flds : List (String × JVal)) (k k' : String) (v : JVal)
    (h : k' ≠ k) : jGet (jSet flds k v) k' = jGet flds k' := by
  have h' : k ≠ k' := Ne.symm h
  induction flds with
  | nil => simp [jSet, jGet, h']
  | cons p rest ih =>
      obtain ⟨k1, v1⟩ := p
      by_cases h1 : k1 = k
      · subst h1
        simp [jSet, jGet, h']
      · by_cases h2 : k1 = k'
        · simp [jSet, jGet, h1, h2, h]
        · simp [jSet, jGet, h1, h2, ih]

theorem jGet_jErase_same (flds : List (String × JVal)) (k : String) :
    jGet (jErase flds k) k = none := by
  induction flds with
  | nil => simp [jErase, jGet]
  | cons p rest ih =>
      obtain ⟨k1, v1⟩ := p
      by_cases h : k1 = k
      · simp [jErase, h, ih]
      · simp [jErase, jGet, h, ih]

theorem jGet_jErase_other (flds : List (String × JVal)) (k k' : String)
    (h : k' ≠ k) : jGet (jErase flds k) k' = jGet flds k' := by
  have h' : k ≠ k' := Ne.symm h
  induction flds with
  | nil => simp [jErase]
  | cons p rest ih =>
      obtain ⟨k1, v1⟩ := p
      by_cases h1 : k1 = k
      · subst h1
        simp [jErase, jGet, h', ih]
      · simp [jErase, jGet, h1, ih]

theorem lookupName_append_self (l : List (String × Nat)) (k : String) (v : Nat)
    (h : lookupName l k = none) : lookupName (l ++ [(k, v)]) k = some v := by
  induction l with
  | nil => simp [lookupName]
  | cons p rest ih =>
      obtain ⟨k1, v1⟩ := p
      by_cases h1 : k1 = k
      · simp [lookupName, h1] at h
      · simp [lookupName, h1] at h ⊢
        exact ih h

/-! ### C3: the handler-outcome to response mapping of Endpoint.call -/

/-- C3: for every endpoint call, the handler's outcome determines the response
exactly as claimed: a returned `Response` record is used as-is; any other
returned value becomes the body of a 200 response; a thrown
`JSONValidationError` yields a 400 response whose body is that error; any
other thrown error yields a 500 response, and exactly that case hands an
error to the response/error-handler collaborator (here under a response
validation that reports nothing, so that the collaborator input isolates the
handler outcome). -/
theorem c3_call_outcome_mapping (respCheck : Nat → JVal → Option JVal)
    (hq : ∀ st b, respCheck st b = none) :
    (∀ r, endpointCall (.retResponse r) respCheck = (r, none)) ∧
    (∀ v, endpointCall (.ret v) respCheck = (mkResponse 200 v, none)) ∧
    (∀ e, endpointCall (.throwValidation e) respCheck = (mkResponse 400 e, none)) ∧
    (∀ e, endpointCall (.throwOther e) respCheck
        = (mkResponse 500 (vStr "internal server error"), some e)) ∧
    (∀ oc e, (endpointCall oc respCheck).2 = some e → oc = .throwOther e) := by
  refine ⟨?_, ?_, ?_, ?_, ?_⟩
  · intro r
    simp [endpointCall, hq]
  · intro v
    simp [endpointCall, hq]
  · intro e
    simp [endpointCall, hq]
  · intro e
    simp [endpointCall]
  · intro oc e h
    cases oc <;> simp [endpointCall, hq] at h <;> simp [h]

/-- Witness for C3 at a concrete silent response check and concrete
outcomes. -/
theorem c3_call_outcome_mapping_witness :
    endpointCall (.throwOther (vStr "boom")) (fun _ _ => none)
      = (mkResponse 500 (vStr "internal server error"), some (vStr "boom")) ∧
    endpointCall (.ret (vObj 1 [("ghi", vBool true)])) (fun _ _ => none)
      = (mkResponse 200 (vObj 1 [("ghi", vBool true)]), none) := by
  refine ⟨?_, ?_⟩
  · exact (c3_call_outcome_mapping (fun _ _ => none) (fun _ _ => rfl)).2.2.2.1
      (vStr "boom")
  · exact (c3_call_outcome_mapping (fun _ _ => none) (fun _ _ => rfl)).2.1
      (vObj 1 [("ghi", vBool true)])

/-! ### C4: convertParamType conversions -/

/-- C4: `convertParamType` returns `undefined` for an absent or empty raw
string regardless of the declared type and never errors in that case; for
`'number'` it returns the numeric coercion and throws exactly when the
coercion is NaN (`"12"` converts to 12, `"abc"` throws); for `'bool'` it
accepts exactly the case-insensitive `true`/`false` literals (`"TRUE"`
converts to true) and throws for any other string; for `'string'` it returns
the input unchanged. -/
theorem c4_convert_param_type :
    (∀ t, convertParamType t none = .ok .undef
        ∧ convertParamType t (some "") = .ok .undef) ∧
    (∀ s q, jsStrToNum s = some q → s ≠ "" →
        convertParamType "number" (some s) = .ok (.num q)) ∧
    (∀ s, jsStrToNum s = none → s ≠ "" →
        convertParamType "number" (some s) = .error (.nanErr s)) ∧
    convertParamType "number" (some "12") = .ok (.num 12) ∧
    convertParamType "number" (some "abc") = .error (.nanErr "abc") ∧
    convertParamType "bool" (some "TRUE") = .ok (.bool true) ∧
    (∀ s, jsToLower s = "true" → convertParamType "bool" (some s) = .ok (.bool true)) ∧
    (∀ s, jsToLower s = "false" → convertParamType "bool" (some s) = .ok (.bool false)) ∧
    (∀ s, s ≠ "" → jsToLower s ≠ "true" → jsToLower s ≠ "false" →
        convertParamType "bool" (some s) = .error (.boolErr s)) ∧
    (∀ s, s ≠ "" → convertParamType "string" (some s) = .ok (.str s)) := by
  refine ⟨?_, ?_, ?_, ?_, ?_, ?_, ?_, ?_, ?_, ?_⟩
  · intro t
    exact ⟨rfl, by simp [convertParamType]⟩
  · intro s q h hs
    simp [convertParamType, hs, h]
  · intro s h hs
    simp [convertParamType, hs, h]
  · simp +decide [convertParamType, jsStrToNum, jsTrim, parseMantissa,
      parseExpPart, digitsToNat]
  · rfl
  · rfl
  · intro s h
    have hs : s ≠ "" := by
      intro he
      rw [he] at h
      exact absurd h (by decide)
    simp [convertParamType, hs, h]
  · intro s h
    have hs : s ≠ "" := by
      intro he
      rw [he] at h
      exact absurd h (by decide)
    simp [convertParamType, hs, h]
  · intro s hs h1 h2
    simp [convertParamType, hs, h1, h2]
  · intro s hs
    simp [convertParamType, hs]

/-- Witness for C4 at concrete inputs discharging every hypothesis. -/
theorem c4_convert_param_type_witness :
    convertParamType "number" (some "12") = .ok (.num 12) ∧
    convertParamType "number" (some "abc") = .error (.nanErr "abc") ∧
    convertParamType "bool" (some "maybe") = .error (.boolErr "maybe") ∧
    convertParamType "bool" (some "") = .ok .undef ∧
    convertParamType "string" (some "x") = .ok (.str "x") := by
  refine ⟨c4_convert_param_type.2.2.2.1, c4_convert_param_type.2.2.2.2.1, ?_, ?_, ?_⟩
  · exact c4_convert_param_type.2.2.2.2.2.2.2.2.1 "maybe" (by simp)
      (by decide) (by decide)
  · exact (c4_convert_param_type.1 "bool").2
  · exact c4_convert_param_type.2.2.2.2.2.2.2.2.2 "x" (by simp)

/-! ### C10: reachable throw sites of convertParamType -/

/-- C10: for the declared types the `Endpoint.parameter` guard admits
(`string`, `number`, `bool`), every error `convertParamType` raises comes
from the number-NaN check or the boolean-literal check — the trailing
unconditional throw for an unknown type is unreachable. -/
theorem c10_unknown_type_throw_unreachable (t : String) (s : Option String)
    (e : ConvErr) (hok : paramTypeOk t = true)
    (herr : convertParamType t s = .error e) :
    (∃ it, e = .nanErr it) ∨ (∃ it, e = .boolErr it) := by
  have ht : t = "string" ∨ t = "number" ∨ t = "bool" := by
    simpa [paramTypeOk, or_assoc] using hok
  cases s with
  | none => simp [convertParamType] at herr
  | some str =>
      by_cases hs : str = ""
      · simp [convertParamType, hs] at herr
      · rcases ht with ht | ht | ht <;> subst ht
        · simp [convertParamType, hs] at herr
        · simp only [convertParamType, hs] at herr
          cases hn : jsStrToNum str with
          | some q => simp [hn] at herr
          | none =>
              simp [hn] at herr
              exact Or.inl ⟨str, herr.symm⟩
        · simp only [convertParamType, hs] at herr
          by_cases h1 : jsToLower str = "true"
          · simp [h1] at herr
          · by_cases h2 : jsToLower str = "false"
            · simp [h1, h2] at herr
            · simp [h1, h2] at herr
              exact Or.inr ⟨str, herr.symm⟩

/-- Witness for C10: the guard admits `number`, and the NaN throw is the one
raised at `"abc"`. -/
theorem c10_unknown_type_throw_unreachable_witness :
    paramTypeOk "number" = true ∧
    ((∃ it, ConvErr.nanErr "abc" = ConvErr.nanErr it)
      ∨ (∃ it, ConvErr.nanErr "abc" = ConvErr.boolErr it)) := by
  refine ⟨by decide, ?_⟩
  exact c10_unknown_type_throw_unreachable "number" (some "abc")
    (.nanErr "abc") (by decide) rfl

/-! ### C6: the x-validator keyword handler -/

theorem xrun_foldl_shift (env : XEnv) (xs : List JVal) (acc : List JVal) :
    xs.foldl (fun a v => a ++ xEntryErrors env v) acc
      = acc ++ xs.foldl (fun a v => a ++ xEntryErrors env v) [] := by
  induction xs generalizing acc with
  | nil => simp
  | cons x rest ih =>
      simp only [List.foldl_cons, List.nil_append]
      rw [ih (acc ++ xEntryErrors env x), ih (xEntryErrors env x),
        List.append_assoc]

/-- C6: the `x-validator` handler normalizes its value to a list (a bare
entry behaves as a singleton), evaluates every entry without short-circuiting
(the errors of a concatenation are the concatenation of the errors, in
order), invokes registered names and inline functions with the accumulator as
receiver appending any non-`undefined` returned message, turns an
unregistered name into an accumulated error naming the missing validator
instead of an exception, ignores absent entries, and turns any entry of
another type into an accumulated configuration error. -/
theorem c6_x_validator_handler (env : XEnv) :
    (∀ v, (∀ xs, v ≠ vArr xs) → xValidatorRun env v = xValidatorRun env (vArr [v])) ∧
    (∀ xs ys, xValidatorRun env (vArr (xs ++ ys))
        = xValidatorRun env (vArr xs) ++ xValidatorRun env (vArr ys)) ∧
    (∀ v, xValidatorRun env (vArr [v]) = xEntryErrors env v) ∧
    (∀ nm, lookupName env.validatorFuncs nm = none →
        xEntryErrors env (vStr nm)
          = [vStr ("x-validator strings (" ++ nm
              ++ ") must reference a defined customValidation function on the OpenAPI object")]) ∧
    (∀ nm fid recs r, lookupName env.validatorFuncs nm = some fid →
        env.funcEval fid = ⟨recs, r⟩ → r ≠ vUndef →
        xEntryErrors env (vStr nm) = recs ++ [r]) ∧
    (∀ nm fid recs, lookupName env.validatorFuncs nm = some fid →
        env.funcEval fid = ⟨recs, vUndef⟩ →
        xEntryErrors env (vStr nm) = recs) ∧
    (∀ fid recs r, env.funcEval fid = ⟨recs, r⟩ → r ≠ vUndef →
        xEntryErrors env (vFunc fid) = recs ++ [r]) ∧
    xEntryErrors env vUndef = [] ∧
    (∀ v, (∀ s, v ≠ vStr s) → (∀ fid, v ≠ vFunc fid) → v ≠ vUndef →
        xEntryErrors env v
          = [vStr ("x-validator type (" ++ jsTypeof v
              ++ ") must be either a function, a string, or an array of both")]) := by
  refine ⟨?_, ?_, ?_, ?_, ?_, ?_, ?_, rfl, ?_⟩
  · intro v hv
    cases v <;> simp [xValidatorRun]
    exact absurd rfl (hv _)
  · intro xs ys
    simp only [xValidatorRun, List.foldl_append]
    rw [xrun_foldl_shift]
  · intro v
    simp [xValidatorRun]
  · intro nm h
    simp [xEntryErrors, h]
  · intro nm fid recs r h hb hr
    cases r <;> simp [xEntryErrors, h, hb] <;> simp at hr
  · intro nm fid recs h hb
    simp [xEntryErrors, h, hb]
  · intro fid recs r hb hr
    cases r <;> simp [xEntryErrors, hb] <;> simp at hr
  · intro v h1 h2 h3
    cases v <;> simp [xEntryErrors, jsTypeof]
    · exact absurd rfl h3
    · exact absurd rfl (h1 _)
    · exact absurd rfl (h2 _)

/-- Witness for C6 at a concrete environment: an unregistered name, a
registered name, an inline function, and a junk entry all evaluated in one
list. -/
theorem c6_x_validator_handler_witness :
    (∀ xs, vStr "missing" ≠ vArr xs) ∧
    xValidatorRun
      ⟨fun fid => if fid = 3 then ⟨[vStr "failed carrot validation"], vUndef⟩
        else ⟨[], vStr "banana validation"⟩, [("carrotValidation", 3)]⟩
      (vArr [vStr "missing", vStr "carrotValidation", vFunc 9, vNum 5])
      = [vStr "x-validator strings (missing) must reference a defined customValidation function on the OpenAPI object",
         vStr "failed carrot validation",
         vStr "banana validation",
         vStr "x-validator type (number) must be either a function, a string, or an array of both"] := by
  constructor
  · intro xs h
    cases h
  · have h := (c6_x_validator_handler
      ⟨fun fid => if fid = 3 then ⟨[vStr "failed carrot validation"], vUndef⟩
        else ⟨[], vStr "banana validation"⟩, [("carrotValidation", 3)]⟩).2.1
      [vStr "missing", vStr "carrotValidation"] [vFunc 9, vNum 5]
    rw [show ([vStr "missing", vStr "carrotValidation", vFunc 9, vNum 5] : List JVal)
      = [vStr "missing", vStr "carrotValidation"] ++ [vFunc 9, vNum 5] from rfl, h]
    rfl

/-! ### C7: duplicate operation identifiers at construction -/

/-- C7: constructing a second endpoint with an operation identifier already
present in the specification throws at construction itself, and at the moment
the error is thrown neither the specification's endpoint table nor its
document has been mutated by the failing construction (the state returned at
the throw is exactly the pre-call state); a successful construction never
touches the document either. -/
theorem c7_duplicate_operation_id (st : SpecState) (opId : String)
    (e1 e2 : Nat) (hfree : lookupName st.endpoints opId = none) :
    (endpointNew st opId e1).1 = .ok () ∧
    endpointNew (endpointNew st opId e1).2 opId e2
      = (.error ("duplicate endpoint definition for operationId: " ++ opId),
         (endpointNew st opId e1).2) ∧
    ((endpointNew st opId e1).2).doc = st.doc ∧
    (∀ st' eid, (lookupName st'.endpoints opId).isSome →
        endpointNew st' opId eid
          = (.error ("duplicate endpoint definition for operationId: " ++ opId), st')) := by
  refine ⟨?_, ?_, ?_, ?_⟩
  · simp [endpointNew, hfree]
  · have h2 : lookupName ((endpointNew st opId e1).2).endpoints opId = some e1 := by
      simp [endpointNew, hfree]
      exact lookupName_append_self st.endpoints opId e1 hfree
    simp [endpointNew, hfree] at h2 ⊢
    simp [h2]
  · simp [endpointNew, hfree]
  · intro st' eid h
    cases hl : lookupName st'.endpoints opId with
    | none => rw [hl] at h; simp at h
    | some x => simp [endpointNew, hl]

/-! ### String lemmas about brace tokens and placeholder markers -/

theorem strMkData (s : String) : String.mk s.data = s := by
  cases s
  rfl

theorem dataWrap (n : String) :
    ("\x7b" ++ n ++ "\x7d").data = '{' :: (n.data ++ ['}']) := by
  have h1 : ("\x7b" : String).data = ['{'] := rfl
  have h2 : ("\x7d" : String).data = ['}'] := rfl
  simp [String.data_append, h1, h2]

theorem braceDelimited_wrap (n : String) :
    braceDelimited ("\x7b" ++ n ++ "\x7d") = true := by
  simp only [braceDelimited, dataWrap, List.head?_cons]
  rw [show ('{' :: (n.data ++ ['}'])) = ('{' :: n.data) ++ ['}'] from rfl,
    List.getLast?_concat]
  rfl

theorem sliceEnds_wrap (n : String) :
    sliceEnds ("\x7b" ++ n ++ "\x7d") = n := by
  simp [sliceEnds, dataWrap, List.dropLast_concat, strMkData]

theorem funcPlaceholderRest_none_of_head (s : String)
    (h : s.data.head? ≠ some 'x') : funcPlaceholderRest s = none := by
  unfold funcPlaceholderRest
  rw [if_neg]
  intro he
  cases hd : s.data with
  | nil =>
      rw [hd] at he
      exact absurd he (by decide)
  | cons c cs =>
      rw [hd] at he h
      have hm : ("x-oas-function: " : String).data
          = 'x' :: "-oas-function: ".data := rfl
      rw [hm, List.take_succ_cons] at he
      simp only [List.cons.injEq] at he
      exact h (by simp [he.1])

theorem funcPlaceholderRest_oas_pointer (nm : String) :
    funcPlaceholderRest ("#/components/schemas/" ++ nm) = none := by
  apply funcPlaceholderRest_none_of_head
  have h1 : ("#/components/schemas/" : String).data
      = '#' :: "/components/schemas/".data := rfl
  simp [String.data_append, h1]

theorem funcPlaceholderRest_js_pointer (nm : String) :
    funcPlaceholderRest ("/" ++ nm) = none := by
  apply funcPlaceholderRest_none_of_head
  have h1 : ("/" : String).data = '/' :: [] := rfl
  simp [String.data_append, h1]

/-! ### C7 (witness) -/

/-- Witness for C7: two constructions named `getThing` on a fresh
specification; the second fails and leaves the state of the first
untouched. -/
theorem c7_duplicate_operation_id_witness :
    (endpointNew ⟨[], vNull⟩ "getThing" 0).1 = .ok () ∧
    endpointNew (endpointNew ⟨[], vNull⟩ "getThing" 0).2 "getThing" 1
      = (.error "duplicate endpoint definition for operationId: getThing",
         (endpointNew ⟨[], vNull⟩ "getThing" 0).2) := by
  have h := c7_duplicate_operation_id ⟨[], vNull⟩ "getThing" 0 1 rfl
  exact ⟨h.1, h.2.1⟩

/-! ### C8: Endpoint.parameter validity (corrected: the accepted primitive
type token for booleans is `bool`, not `boolean`) -/

/-- Counterexample to C8 as stated: the claim's set of valid primitive types
is `\x7bstring, number, boolean\x7d`, so a call with type `"boolean"` and a
valid location would have to compile and record the parameter; the code's
guard accepts only the token `"bool"` and the call with `"boolean"` throws the
configuration error instead. -/
theorem c8_parameter_type_counterexample :
    endpointParameter [] ⟨"getStuff", [], [], [], []⟩ "query" "activeOnly"
      "only show actives" false (vObj 1 [("type", vStr "boolean")]) "boolean"
      = .error "invalid type for parameter activeOnly in query of getStuff (must be one of \x7bstring,number,bool\x7d)" := by
  rfl

/-- C8 (amended): `Endpoint.parameter` fails with a configuration error
whenever its primitive type argument is not one of `string`, `number`, `bool`
(the code's boolean token), or — once the schema compiled in both dialects —
its location argument is not one of `query`, `path`, `header`; every valid
call compiles the schema into both dialects, records the typed parameter in
the bucket matching its location, and appends its documentation form to the
operation's parameter list. -/
theorem c8_parameter_amended (reg : Registry) (est : EndpointState)
    (loc name dsc : String) (req : Bool) (schema : JVal) (t : String)
    (oasS jsS : JVal) :
    (paramTypeOk t = false →
      endpointParameter reg est loc name dsc req schema t
        = .error ("invalid type for parameter " ++ name ++ " in " ++ loc
            ++ " of " ++ est.opId ++ " (must be one of \x7bstring,number,bool\x7d)")) ∧
    (paramTypeOk t = true → toOasSchema schema reg = .ok oasS →
      toJsonschema schema reg = .ok jsS →
      (loc ≠ "query" → loc ≠ "path" → loc ≠ "header" →
        endpointParameter reg est loc name dsc req schema t
          = .error ("value for \x27loc\x27 should be one of \x7bquery, path, header\x7d for parameter "
              ++ name ++ " in " ++ est.opId)) ∧
      (endpointParameter reg est "query" name dsc req schema t
        = .ok ⟨est.opId,
            est.docParameters ++ [⟨name, dsc, "query", req, oasS⟩],
            est.query ++ [⟨⟨name, dsc, "query", req, oasS⟩, t, jsS⟩],
            est.params, est.headers⟩) ∧
      (endpointParameter reg est "path" name dsc req schema t
        = .ok ⟨est.opId,
            est.docParameters ++ [⟨name, dsc, "path", req, oasS⟩],
            est.query,
            est.params ++ [⟨⟨name, dsc, "path", req, oasS⟩, t, jsS⟩],
            est.headers⟩) ∧
      (endpointParameter reg est "header" name dsc req schema t
        = .ok ⟨est.opId,
            est.docParameters ++ [⟨name, dsc, "header", req, oasS⟩],
            est.query, est.params,
            est.headers ++ [⟨⟨name, dsc, "header", req, oasS⟩, t, jsS⟩]⟩)) := by
  constructor
  · intro hbad
    simp [endpointParameter, hbad]
  · intro hok hoas hjs
    refine ⟨?_, ?_, ?_, ?_⟩
    · intro h1 h2 h3
      simp [endpointParameter, hok, hoas, hjs, h1, h2, h3]
    · simp [endpointParameter, hok, hoas, hjs]
    · simp [endpointParameter, hok, hoas, hjs]
    · simp [endpointParameter, hok, hoas, hjs]

/-- Witness for C8 (amended) at a concrete valid and a concrete invalid
call. -/
theorem c8_parameter_amended_witness :
    endpointParameter [] ⟨"getStuff", [], [], [], []⟩ "query" "name"
      "filter by name" false (vObj 1 [("type", vStr "string")]) "string"
      = .ok ⟨"getStuff",
          [⟨"name", "filter by name", "query", false, vObj 0 [("type", vStr "string")]⟩],
          [⟨⟨"name", "filter by name", "query", false, vObj 0 [("type", vStr "string")]⟩,
            "string", vObj 0 [("type", vStr "string")]⟩],
          [], []⟩ ∧
    endpointParameter [] ⟨"getStuff", [], [], [], []⟩ "body" "name"
      "filter by name" false (vObj 1 [("type", vStr "string")]) "string"
      = .error "value for \x27loc\x27 should be one of \x7bquery, path, header\x7d for parameter name in getStuff" := by
  constructor
  · exact (c8_parameter_amended [] ⟨"getStuff", [], [], [], []⟩ "query" "name"
      "filter by name" false (vObj 1 [("type", vStr "string")]) "string"
      (vObj 0 [("type", vStr "string")]) (vObj 0 [("type", vStr "string")])).2
      (by decide) rfl rfl |>.2.1
  · exact (c8_parameter_amended [] ⟨"getStuff", [], [], [], []⟩ "body" "name"
      "filter by name" false (vObj 1 [("type", vStr "string")]) "string"
      (vObj 0 [("type", vStr "string")]) (vObj 0 [("type", vStr "string")])).2
      (by decide) rfl rfl |>.1 (by decide) (by decide) (by decide)

/-! ### C9: sibling keywords under documentation-dialect lowering -/

/-- C9: in the documentation-dialect per-object rewriting, deleting the
`dependencies` or `x-validator` keyword leaves every sibling keyword of the
object untouched; merging `patternProperties` into `properties` changes only
those two keys; lowering `const` to a single-element `enum` changes only
those two keys. -/
theorem c9_doc_lowering_frame (flds : List (String × JVal)) (cv : JVal)
    (pid poid : Nat) (pfs qfs : List (String × JVal)) :
    ((∀ k, k ≠ "dependencies" →
        jGet (oasStepOne flds "dependencies") k = jGet flds k) ∧
      jGet (oasStepOne flds "dependencies") "dependencies" = none) ∧
    ((∀ k, k ≠ "x-validator" →
        jGet (oasStepOne flds "x-validator") k = jGet flds k) ∧
      jGet (oasStepOne flds "x-validator") "x-validator" = none) ∧
    (jGet flds "const" = some cv →
      (∀ k, k ≠ "const" → k ≠ "enum" →
        jGet (oasStepOne flds "const") k = jGet flds k) ∧
      jGet (oasStepOne flds "const") "const" = none ∧
      jGet (oasStepOne flds "const") "enum" = some (vArr [cv])) ∧
    (jGet flds "patternProperties" = some (vObj pid pfs) →
      jGet flds "properties" = some (vObj poid qfs) →
      (∀ k, k ≠ "patternProperties" → k ≠ "properties" →
        jGet (oasStepOne flds "patternProperties") k = jGet flds k) ∧
      jGet (oasStepOne flds "patternProperties") "patternProperties" = none ∧
      jGet (oasStepOne flds "patternProperties") "properties"
        = some (vObj poid (objAssign qfs pfs))) := by
  have hdep : oasStepOne flds "dependencies" = jErase flds "dependencies" := rfl
  have hxv : oasStepOne flds "x-validator" = jErase flds "x-validator" := rfl
  refine ⟨⟨?_, ?_⟩, ⟨?_, ?_⟩, ?_, ?_⟩
  · intro k hk
    rw [hdep, jGet_jErase_other flds "dependencies" k hk]
  · rw [hdep, jGet_jErase_same]
  · intro k hk
    rw [hxv, jGet_jErase_other flds "x-validator" k hk]
  · rw [hxv, jGet_jErase_same]
  · intro hc
    have hstep : oasStepOne flds "const"
        = jErase (jSet flds "enum" (vArr [cv])) "const" := by
      show (match jGet flds "const" with
        | some cv => jErase (jSet flds "enum" (vArr [cv])) "const"
        | none => flds) = _
      rw [hc]
    refine ⟨?_, ?_, ?_⟩
    · intro k h1 h2
      rw [hstep, jGet_jErase_other _ "const" k h1,
        jGet_jSet_other _ "enum" k _ h2]
    · rw [hstep, jGet_jErase_same]
    · rw [hstep, jGet_jErase_other _ "const" "enum" (by decide),
        jGet_jSet_same]
  · intro hp hq
    have hstep : oasStepOne flds "patternProperties"
        = jErase (jSet flds "properties" (vObj poid (objAssign qfs pfs)))
            "patternProperties" := by
      have h0 : oasStepOne flds "patternProperties"
          = match jGet flds "patternProperties" with
            | some pv =>
                jErase
                  (jSet flds "properties" (mergeProps (jGet flds "properties") pv))
                  "patternProperties"
            | none => flds := rfl
      rw [h0, hp]
      show jErase (jSet flds "properties"
        (mergeProps (jGet flds "properties") (vObj pid pfs))) "patternProperties" = _
      rw [hq]
      rfl
    refine ⟨?_, ?_, ?_⟩
    · intro k h1 h2
      rw [hstep, jGet_jErase_other _ "patternProperties" k h1,
        jGet_jSet_other _ "properties" k _ h2]
    · rw [hstep, jGet_jErase_same]
    · rw [hstep, jGet_jErase_other _ "patternProperties" "properties" (by decide),
        jGet_jSet_same]

/-- Witness for C9 at a concrete object carrying every relevant keyword plus
untouched siblings. -/
theorem c9_doc_lowering_frame_witness :
    jGet (oasStepOne [("title", vStr "T"), ("dependencies", vObj 2 []),
        ("type", vStr "object")] "dependencies") "title" = some (vStr "T") ∧
    jGet (oasStepOne [("title", vStr "T"), ("const", vNum 5)] "const") "enum"
      = some (vArr [vNum 5]) ∧
    jGet (oasStepOne [("properties", vObj 3 [("b", vBool true)]),
        ("patternProperties", vObj 2 [("^a", vNull)])] "patternProperties")
        "properties"
      = some (vObj 3 (objAssign [("b", vBool true)] [("^a", vNull)])) := by
  refine ⟨?_, ?_, ?_⟩
  · exact (c9_doc_lowering_frame [("title", vStr "T"), ("dependencies", vObj 2 []),
      ("type", vStr "object")] vNull 0 0 [] []).1.1 "title" (by decide)
  · exact ((c9_doc_lowering_frame [("title", vStr "T"), ("const", vNum 5)]
      (vNum 5) 0 0 [] []).2.2.1 rfl).2.2
  · exact ((c9_doc_lowering_frame [("properties", vObj 3 [("b", vBool true)]),
      ("patternProperties", vObj 2 [("^a", vNull)])] vNull 2 3
      [("^a", vNull)] [("b", vBool true)]).2.2.2 rfl rfl).2.2

/-! ### C5: the x-nullable lowering in both dialects -/

/-- C5: documentation-dialect compilation replaces `x-nullable` with an
`allOf` of the wrapped schema and a `nullable: true` flag and appends a
`(nullable)` marker to the description, while validation-dialect compilation
replaces it with a `oneOf` of the wrapped schema and an explicit null-type
schema; in both dialects the wrapped schema (arbitrary here, so in particular
a reference or an `allOf`/`anyOf`/`oneOf` composite) is kept whole as the
first disjunct/conjunct, not flattened — shown for the lowering walk with an
arbitrary wrapped schema, and through the full compilation pipeline with a
reference-valued wrapped schema. -/
theorem c5_nullable_lowering :
    (∀ oid dsc w, dsc ≠ "" →
      oasWalk (vObj oid [("description", vStr dsc), ("x-nullable", w)])
        = vObj oid [("description", vStr ((dsc ++ " - ") ++ "(nullable)")),
            ("allOf", vArr [oasWalk w, vObj 0 [("nullable", vBool true)]])] ∧
      jsWalk (vObj oid [("description", vStr dsc), ("x-nullable", w)])
        = vObj oid [("description", vStr dsc),
            ("oneOf", vArr [jsWalk w,
              vObj 0 [("title", vStr "Null"), ("type", vStr "null")]])]) ∧
    (∀ nm dsc, dsc ≠ "" → funcPlaceholderRest dsc = none →
      toOasSchema (vObj 5 [("description", vStr dsc),
          ("x-nullable", vObj 6 [("$ref", vStr ("\x7b" ++ nm ++ "\x7d"))])]) []
        = .ok (vObj 0 [("description", vStr ((dsc ++ " - ") ++ "(nullable)")),
            ("allOf", vArr [vObj 0 [("$ref", vStr ("#/components/schemas/" ++ nm))],
              vObj 0 [("nullable", vBool true)]])]) ∧
      toJsonschema (vObj 5 [("description", vStr dsc),
          ("x-nullable", vObj 6 [("$ref", vStr ("\x7b" ++ nm ++ "\x7d"))])]) []
        = .ok (vObj 0 [("description", vStr dsc),
            ("oneOf", vArr [vObj 0 [("$ref", vStr ("/" ++ nm))],
              vObj 0 [("title", vStr "Null"), ("type", vStr "null")]])])) := by
  have hwalk : ∀ oid dsc w, dsc ≠ "" →
      oasWalk (vObj oid [("description", vStr dsc), ("x-nullable", w)])
        = vObj oid [("description", vStr ((dsc ++ " - ") ++ "(nullable)")),
            ("allOf", vArr [oasWalk w, vObj 0 [("nullable", vBool true)]])] ∧
      jsWalk (vObj oid [("description", vStr dsc), ("x-nullable", w)])
        = vObj oid [("description", vStr dsc),
            ("oneOf", vArr [jsWalk w,
              vObj 0 [("title", vStr "Null"), ("type", vStr "null")]])] := by
    intro oid dsc w hd
    constructor
    · simp only [oasWalk, oasWalkFields]
      simp +decide [oasStep, oasStepOne, nullableDesc, jGet, jSet, jErase,
        jsTruthyOpt, jsTruthy, jsToStringOpt, jsToString, hd]
    · simp only [jsWalk, jsWalkFields]
      simp +decide [jsStep, jsStepOne, jGet, jSet, jErase]
  refine ⟨hwalk, ?_⟩
  intro nm dsc hd hmark
  have hb := braceDelimited_wrap nm
  have hs := sliceEnds_wrap nm
  have hoasm := funcPlaceholderRest_oas_pointer nm
  have hjsm := funcPlaceholderRest_js_pointer nm
  constructor
  · have hser : serVal [] (fun n => "#/components/schemas/" ++ n)
        (vObj 5 [("description", vStr dsc),
          ("x-nullable", vObj 6 [("$ref", vStr ("\x7b" ++ nm ++ "\x7d"))])]) []
        = .ok (vObj 0 [("description", vStr dsc),
            ("x-nullable", vObj 0 [("$ref",
              vStr ("#/components/schemas/" ++ nm))])], []) := by
      simp +decide [serVal, serFields, refReplaceValue, hb, hs]
    have hrev : reviveVal [] (vObj 0 [("description", vStr dsc),
        ("x-nullable", vObj 0 [("$ref", vStr ("#/components/schemas/" ++ nm))])])
        = vObj 0 [("description", vStr dsc),
            ("x-nullable", vObj 0 [("$ref", vStr ("#/components/schemas/" ++ nm))])] := by
      simp [reviveVal, reviveFields, hmark, hoasm]
    rw [toOasSchema, schemaRefReplace, hser]
    simp only [hrev]
    exact congrArg Except.ok ((hwalk 0 dsc
      (vObj 0 [("$ref", vStr ("#/components/schemas/" ++ nm))]) hd).1.trans
      (by simp [oasWalk, oasWalkFields, oasStep, oasStepOne]))
  · have hser : serVal [] (fun n => "/" ++ n)
        (vObj 5 [("description", vStr dsc),
          ("x-nullable", vObj 6 [("$ref", vStr ("\x7b" ++ nm ++ "\x7d"))])]) []
        = .ok (vObj 0 [("description", vStr dsc),
            ("x-nullable", vObj 0 [("$ref", vStr ("/" ++ nm))])], []) := by
      simp +decide [serVal, serFields, refReplaceValue, hb, hs]
    have hrev : reviveVal [] (vObj 0 [("description", vStr dsc),
        ("x-nullable", vObj 0 [("$ref", vStr ("/" ++ nm))])])
        = vObj 0 [("description", vStr dsc),
            ("x-nullable", vObj 0 [("$ref", vStr ("/" ++ nm))])] := by
      simp [reviveVal, reviveFields, hmark, hjsm]
    rw [toJsonschema, schemaRefReplace, hser]
    simp only [hrev]
    exact congrArg Except.ok ((hwalk 0 dsc
      (vObj 0 [("$ref", vStr ("/" ++ nm))]) hd).2.trans
      (by simp [jsWalk, jsWalkFields, jsStep, jsStepOne]))

/-- Witness for C5 at a concrete description and wrapped composite and
reference schemas. -/
theorem c5_nullable_lowering_witness :
    oasWalk (vObj 1 [("description", vStr "a fruit"),
        ("x-nullable", vObj 2 [("anyOf", vArr [vObj 3 [("type", vStr "string")]])])])
      = vObj 1 [("description", vStr "a fruit - (nullable)"),
          ("allOf", vArr [vObj 2 [("anyOf", vArr [vObj 3 [("type", vStr "string")]])],
            vObj 0 [("nullable", vBool true)]])] ∧
    toJsonschema (vObj 5 [("description", vStr "a fruit"),
        ("x-nullable", vObj 6 [("$ref", vStr "\x7bApple\x7d")])]) []
      = .ok (vObj 0 [("description", vStr "a fruit"),
          ("oneOf", vArr [vObj 0 [("$ref", vStr "/Apple")],
            vObj 0 [("title", vStr "Null"), ("type", vStr "null")]])]) := by
  constructor
  · have h := (c5_nullable_lowering.1 1 "a fruit"
      (vObj 2 [("anyOf", vArr [vObj 3 [("type", vStr "string")]])])
      (by decide)).1
    rw [h]
    simp [oasWalk, oasWalkElems, oasWalkFields, oasStep, oasStepOne]
  · have h := (c5_nullable_lowering.2 "Apple" "a fruit" (by decide)
      (by rfl)).2
    rw [show ("\x7b" ++ "Apple" ++ "\x7d" : String) = "\x7bApple\x7d" from rfl] at h
    rw [show ("/" ++ "Apple" : String) = "/Apple" from rfl] at h
    exact h

/-! ### C1: reference resolution -/

theorem refValueUnreg_of_error (reg : Registry) (rf : String → String)
    (v : JVal) (funcs : List Nat) (e : String)
    (h : refReplaceValue reg rf v funcs = .error e) :
    refValueUnreg reg v = true := by
  cases v <;> simp [refReplaceValue, refValueUnreg] at h ⊢
  case vObj tid flds =>
      cases hr : regFind reg tid with
      | some tok => rw [hr] at h; simp at h
      | none => simp [hr]
  case vStr s =>
      by_cases hb : braceDelimited s
      · simp [hb] at h
      · simp [hb] at h

theorem refValueUnreg_of_ok (reg : Registry) (rf : String → String)
    (v : JVal) (funcs : List Nat) (res : Option JVal) (funcs1 : List Nat)
    (h : refReplaceValue reg rf v funcs = .ok (res, funcs1)) :
    refValueUnreg reg v = false := by
  cases v <;> simp [refReplaceValue, refValueUnreg] at h ⊢
  case vObj tid flds =>
      cases hr : regFind reg tid with
      | some tok => simp [hr]
      | none => rw [hr] at h; simp at h

/-- The serializer pass succeeds exactly when the schema contains no
unresolvable `$ref` (the sole throw site of `schemaRefReplace`). -/
theorem serVal_ok_iff (reg : Registry) (rf : String → String) (v : JVal)
    (funcs : List Nat) :
    exOk (serVal reg rf v funcs) = !hasUnregRef reg v := by
  refine serVal.induct reg rf
    (fun v funcs => exOk (serVal reg rf v funcs) = !hasUnregRef reg v)
    (fun flds funcs =>
      exOk (serFields reg rf flds funcs) = !hasUnregRefFields reg flds)
    (fun xs funcs =>
      exOk (serElems reg rf xs funcs) = !hasUnregRefElems reg xs)
    ?_ ?_ ?_ ?_ ?_ ?_ ?_ ?_ ?_ ?_ ?_ ?_ ?_ ?_ ?_ ?_ ?_ ?_ ?_ ?_ ?_ v funcs
  · intro fid funcs
    simp [serVal, exOk, hasUnregRef]
  · intro xs funcs ys funcs1 h ih
    rw [h] at ih
    simp [serVal, h, exOk, hasUnregRef] at ih ⊢
    simp [ih]
  · intro xs funcs e h ih
    rw [h] at ih
    simp [serVal, h, exOk, hasUnregRef] at ih ⊢
    simp [ih]
  · intro oid flds funcs gs funcs1 h ih
    rw [h] at ih
    simp [serVal, h, exOk, hasUnregRef] at ih ⊢
    simp [ih]
  · intro oid flds funcs e h ih
    rw [h] at ih
    simp [serVal, h, exOk, hasUnregRef] at ih ⊢
    simp [ih]
  · intro funcs
    simp [serVal, exOk, hasUnregRef]
  · intro funcs
    simp [serVal, exOk, hasUnregRef]
  · intro b funcs
    simp [serVal, exOk, hasUnregRef]
  · intro q funcs
    simp [serVal, exOk, hasUnregRef]
  · intro s funcs
    simp [serVal, exOk, hasUnregRef]
  · intro funcs
    simp [serElems, exOk, hasUnregRefElems]
  · intro x rest funcs e h ih
    rw [h] at ih
    simp [exOk] at ih
    simp [serElems, h, exOk, hasUnregRefElems, ih]
  · intro x rest funcs y funcs1 h e h2 ih1 ih3
    rw [h] at ih1
    rw [h2] at ih3
    simp [exOk] at ih1 ih3
    simp [serElems, h, h2, exOk, hasUnregRefElems, ih1, ih3]
  · intro x rest funcs y funcs1 h ys funcs2 h2 ih1 ih3
    rw [h] at ih1
    rw [h2] at ih3
    simp [exOk] at ih1 ih3
    simp [serElems, h, h2, exOk, hasUnregRefElems, ih1, ih3]
  · intro funcs
    simp [serFields, exOk, hasUnregRefFields]
  · intro v rest funcs e h
    have hu := refValueUnreg_of_error reg rf v funcs e h
    simp [serFields, h, exOk, hasUnregRefFields, hu]
  · intro v rest funcs res funcs1 h e h2 ih
    have hu := refValueUnreg_of_ok reg rf v funcs res funcs1 h
    rw [h2] at ih
    simp [exOk] at ih
    simp [serFields, h, h2, exOk, hasUnregRefFields, hu, ih]
  · intro v rest funcs res funcs1 h gs funcs2 h2 ih
    have hu := refValueUnreg_of_ok reg rf v funcs res funcs1 h
    rw [h2] at ih
    simp [exOk] at ih
    simp [serFields, h, h2, exOk, hasUnregRefFields, hu, ih]
  · intro k v rest funcs hk e h ih
    rw [h] at ih
    simp [exOk] at ih
    simp [serFields, hk, h, exOk, hasUnregRefFields, ih]
  · intro k v rest funcs hk y funcs1 h e h2 ih1 ih2
    rw [h] at ih1
    rw [h2] at ih2
    simp [exOk] at ih1 ih2
    simp [serFields, hk, h, h2, exOk, hasUnregRefFields, ih1, ih2]
  · intro k v rest funcs hk y funcs1 h gs funcs2 h2 ih1 ih2
    rw [h] at ih1
    rw [h2] at ih2
    simp [exOk] at ih1 ih2
    simp [serFields, hk, h, h2, exOk, hasUnregRefFields, ih1, ih2]

/-- Only a root of `undefined` serializes to `undefined`. -/
theorem serVal_root_undef (reg : Registry) (rf : String → String) (v : JVal)
    (funcs funcs1 : List Nat)
    (h : serVal reg rf v funcs = .ok (vUndef, funcs1)) : v = vUndef := by
  cases v with
  | vUndef => rfl
  | vNull => simp [serVal] at h
  | vBool b => simp [serVal] at h
  | vNum q => simp [serVal] at h
  | vStr s => simp [serVal] at h
  | vFunc fid => simp [serVal] at h
  | vArr xs =>
      simp only [serVal] at h
      split at h <;> simp_all
  | vObj oid flds =>
      simp only [serVal] at h
      split at h <;> simp_all

theorem schemaRefReplace_ok_iff (reg : Registry) (rf : String → String)
    (s : JVal) (hs : s ≠ vUndef) :
    exOk (schemaRefReplace reg rf s) = !hasUnregRef reg s := by
  have key := serVal_ok_iff reg rf s []
  unfold schemaRefReplace
  cases h : serVal reg rf s [] with
  | error e =>
      rw [h] at key
      simp [exOk] at key ⊢
      simp [key]
  | ok p =>
      obtain ⟨copy, funcs⟩ := p
      rw [h] at key
      simp [exOk] at key
      cases copy with
      | vUndef => exact absurd (serVal_root_undef reg rf s [] funcs h) hs
      | vNull => simp [exOk, key]
      | vBool b => simp [exOk, key]
      | vNum q => simp [exOk, key]
      | vStr str => simp [exOk, key]
      | vFunc fid => simp [exOk, key]
      | vArr xs => simp [exOk, key]
      | vObj oid flds => simp [exOk, key]

/-- C1: in either dialect, a `$ref` node whose value is an object resolves by
identity through the specification's registry — rewritten to the dialect's
pointer string when registered, an unresolved-reference error otherwise; a
`$ref` whose value is already a brace-delimited string token is rewritten
directly, for every registry alike (no lookup); and compilation fails exactly
when the schema contains an object-valued `$ref` that is not registered. -/
theorem c1_reference_resolution (reg : Registry) :
    (∀ s, s ≠ vUndef →
      exOk (toOasSchema s reg) = !hasUnregRef reg s ∧
      exOk (toJsonschema s reg) = !hasUnregRef reg s) ∧
    (∀ oid nm,
      toOasSchema (vObj oid [("$ref", vStr ("\x7b" ++ nm ++ "\x7d"))]) reg
        = .ok (vObj 0 [("$ref", vStr ("#/components/schemas/" ++ nm))]) ∧
      toJsonschema (vObj oid [("$ref", vStr ("\x7b" ++ nm ++ "\x7d"))]) reg
        = .ok (vObj 0 [("$ref", vStr ("/" ++ nm))])) ∧
    (∀ oid tid flds nm, regFind reg tid = some ("\x7b" ++ nm ++ "\x7d") →
      toOasSchema (vObj oid [("$ref", vObj tid flds)]) reg
        = .ok (vObj 0 [("$ref", vStr ("#/components/schemas/" ++ nm))]) ∧
      toJsonschema (vObj oid [("$ref", vObj tid flds)]) reg
        = .ok (vObj 0 [("$ref", vStr ("/" ++ nm))])) ∧
    (∀ oid tid flds, regFind reg tid = none →
      toOasSchema (vObj oid [("$ref", vObj tid flds)]) reg
        = .error "missing required reference to this object" ∧
      toJsonschema (vObj oid [("$ref", vObj tid flds)]) reg
        = .error "missing required reference to this object") := by
  refine ⟨?_, ?_, ?_, ?_⟩
  · intro s hs
    constructor
    · have key := schemaRefReplace_ok_iff reg
        (fun n => "#/components/schemas/" ++ n) s hs
      unfold toOasSchema
      cases h : schemaRefReplace reg (fun n => "#/components/schemas/" ++ n) s with
      | ok c => rw [h] at key; simpa [exOk] using key
      | error e => rw [h] at key; simpa [exOk] using key
    · have key := schemaRefReplace_ok_iff reg (fun n => "/" ++ n) s hs
      unfold toJsonschema
      cases h : schemaRefReplace reg (fun n => "/" ++ n) s with
      | ok c => rw [h] at key; simpa [exOk] using key
      | error e => rw [h] at key; simpa [exOk] using key
  · intro oid nm
    have hb := braceDelimited_wrap nm
    have hsl := sliceEnds_wrap nm
    constructor
    · have hser : serVal reg (fun n => "#/components/schemas/" ++ n)
          (vObj oid [("$ref", vStr ("\x7b" ++ nm ++ "\x7d"))]) []
          = .ok (vObj 0 [("$ref", vStr ("#/components/schemas/" ++ nm))], []) := by
        simp +decide [serVal, serFields, refReplaceValue, hb, hsl]
      rw [toOasSchema, schemaRefReplace, hser]
      simp [reviveVal, reviveFields, funcPlaceholderRest_oas_pointer,
        oasWalk, oasWalkFields, oasStep, oasStepOne]
    · have hser : serVal reg (fun n => "/" ++ n)
          (vObj oid [("$ref", vStr ("\x7b" ++ nm ++ "\x7d"))]) []
          = .ok (vObj 0 [("$ref", vStr ("/" ++ nm))], []) := by
        simp +decide [serVal, serFields, refReplaceValue, hb, hsl]
      rw [toJsonschema, schemaRefReplace, hser]
      simp [reviveVal, reviveFields, funcPlaceholderRest_js_pointer,
        jsWalk, jsWalkFields, jsStep, jsStepOne]
  · intro oid tid flds nm hreg
    have hsl := sliceEnds_wrap nm
    constructor
    · have hser : serVal reg (fun n => "#/components/schemas/" ++ n)
          (vObj oid [("$ref", vObj tid flds)]) []
          = .ok (vObj 0 [("$ref", vStr ("#/components/schemas/" ++ nm))], []) := by
        simp +decide [serVal, serFields, refReplaceValue, hreg, hsl]
      rw [toOasSchema, schemaRefReplace, hser]
      simp [reviveVal, reviveFields, funcPlaceholderRest_oas_pointer,
        oasWalk, oasWalkFields, oasStep, oasStepOne]
    · have hser : serVal reg (fun n => "/" ++ n)
          (vObj oid [("$ref", vObj tid flds)]) []
          = .ok (vObj 0 [("$ref", vStr ("/" ++ nm))], []) := by
        simp +decide [serVal, serFields, refReplaceValue, hreg, hsl]
      rw [toJsonschema, schemaRefReplace, hser]
      simp [reviveVal, reviveFields, funcPlaceholderRest_js_pointer,
        jsWalk, jsWalkFields, jsStep, jsStepOne]
  · intro oid tid flds hreg
    constructor
    · have hser : serVal reg (fun n => "#/components/schemas/" ++ n)
          (vObj oid [("$ref", vObj tid flds)]) []
          = .error "missing required reference to this object" := by
        simp +decide [serVal, serFields, refReplaceValue, hreg]
      rw [toOasSchema, schemaRefReplace, hser]
    · have hser : serVal reg (fun n => "/" ++ n)
          (vObj oid [("$ref", vObj tid flds)]) []
          = .error "missing required reference to this object" := by
        simp +decide [serVal, serFields, refReplaceValue, hreg]
      rw [toJsonschema, schemaRefReplace, hser]

/-- Witness for C1: a registry holding one object identity; the registered
reference resolves in both dialects, the structurally equal but distinct
object identity fails, and the error/success test agrees with
`hasUnregRef` on a concrete mixed schema. -/
theorem c1_reference_resolution_witness :
    toOasSchema (vObj 5 [("$ref", vObj 9 [("type", vStr "object")])])
        (mkRegistry [(9, "Apple")])
      = .ok (vObj 0 [("$ref", vStr ("#/components/schemas/" ++ "Apple"))]) ∧
    toJsonschema (vObj 5 [("$ref", vObj 8 [("type", vStr "object")])])
        (mkRegistry [(9, "Apple")])
      = .error "missing required reference to this object" ∧
    exOk (toOasSchema (vObj 5 [("items", vObj 7 [("$ref", vStr "\x7bApple\x7d")])])
        (mkRegistry [(9, "Apple")])) = true := by
  refine ⟨?_, ?_, ?_⟩
  · exact ((c1_reference_resolution (mkRegistry [(9, "Apple")])).2.2.1 5 9
      [("type", vStr "object")] "Apple" rfl).1
  · exact ((c1_reference_resolution (mkRegistry [(9, "Apple")])).2.2.2 5 8
      [("type", vStr "object")] rfl).2
  · have h := ((c1_reference_resolution (mkRegistry [(9, "Apple")])).1
      (vObj 5 [("items", vObj 7 [("$ref", vStr "\x7bApple\x7d")])])
      (by intro he; cases he)).1
    rw [h]
    rfl

/-! ### C2: function identities across compilation -/

theorem funcIdsFields_append (a b : List (String × JVal)) :
    funcIdsFields (a ++ b) = funcIdsFields a ++ funcIdsFields b := by
  induction a with
  | nil => simp [funcIdsFields]
  | cons p rest ih =>
      obtain ⟨k, v⟩ := p
      simp [funcIdsFields, ih]

theorem mem_funcIds_jGet (flds : List (String × JVal)) (k : String) (v : JVal)
    (i : Nat) (h : jGet flds k = some v) (hi : i ∈ funcIds v) :
    i ∈ funcIdsFields flds := by
  induction flds with
  | nil => simp [jGet] at h
  | cons p rest ih =>
      obtain ⟨k1, v1⟩ := p
      by_cases h1 : k1 = k
      · simp [jGet, h1] at h
        subst h
        simp [funcIdsFields, hi]
      · simp [jGet, h1] at h
        simp [funcIdsFields, ih h]

theorem mem_funcIds_jSet (flds : List (String × JVal)) (k : String) (v : JVal)
    (i : Nat) (h : i ∈ funcIdsFields (jSet flds k v)) :
    i ∈ funcIdsFields flds ∨ i ∈ funcIds v := by
  induction flds with
  | nil =>
      simp [jSet, funcIdsFields] at h
      exact Or.inr h
  | cons p rest ih =>
      obtain ⟨k1, v1⟩ := p
      by_cases h1 : k1 = k
      · simp [jSet, h1, funcIdsFields] at h ⊢
        tauto
      · simp [jSet, h1, funcIdsFields] at h ⊢
        rcases h with h | h
        · tauto
        · rcases ih h with h2 | h2 <;> tauto

theorem mem_funcIds_jErase (flds : List (String × JVal)) (k : String)
    (i : Nat) (h : i ∈ funcIdsFields (jErase flds k)) :
    i ∈ funcIdsFields flds := by
  induction flds with
  | nil => simpa [jErase] using h
  | cons p rest ih =>
      obtain ⟨k1, v1⟩ := p
      by_cases h1 : k1 = k
      · simp [jErase, h1] at h
        simp [funcIdsFields, ih h]
      · simp [jErase, h1, funcIdsFields] at h ⊢
        rcases h with h | h
        · tauto
        · exact Or.inr (ih h)

theorem mem_funcIds_objAssign (s t : List (String × JVal)) (i : Nat)
    (h : i ∈ funcIdsFields (objAssign t s)) :
    i ∈ funcIdsFields t ∨ i ∈ funcIdsFields s := by
  induction s generalizing t with
  | nil => simpa [objAssign] using Or.inl h
  | cons p rest ih =>
      obtain ⟨k1, v1⟩ := p
      simp only [objAssign, List.foldl_cons] at h
      rcases ih (jSet t k1 v1) (by simpa [objAssign] using h) with h2 | h2
      · rcases mem_funcIds_jSet t k1 v1 i h2 with h3 | h3
        · exact Or.inl h3
        · simp [funcIdsFields, h3]
      · simp [funcIdsFields]
        tauto

theorem refReplaceValue_funcs (reg : Registry) (rf : String → String)
    (v : JVal) (funcs : List Nat) (res : Option JVal) (funcs1 : List Nat)
    (h : refReplaceValue reg rf v funcs = .ok (res, funcs1)) :
    (∀ y, res = some y → funcIds y = []) ∧
    (∀ i, i ∈ funcs1 → i ∈ funcs ∨ i ∈ funcIds v) := by
  cases v with
  | vNull => simp [refReplaceValue] at h
  | vArr xs => simp [refReplaceValue] at h
  | vObj tid flds =>
      cases hr : regFind reg tid with
      | some tok =>
          simp [refReplaceValue, hr] at h
          obtain ⟨h1, h2⟩ := h
          subst h1 h2
          exact ⟨(fun y hy => by cases hy; rfl), fun i hi => Or.inl hi⟩
      | none => simp [refReplaceValue, hr] at h
  | vStr s =>
      by_cases hb : braceDelimited s
      · simp [refReplaceValue, hb] at h
        obtain ⟨h1, h2⟩ := h
        subst h1 h2
        exact ⟨(fun y hy => by cases hy; rfl), fun i hi => Or.inl hi⟩
      · simp [refReplaceValue, hb] at h
        obtain ⟨h1, h2⟩ := h
        subst h1 h2
        exact ⟨(fun y hy => by cases hy; rfl), fun i hi => Or.inl hi⟩
  | vFunc fid =>
      simp [refReplaceValue] at h
      obtain ⟨h1, h2⟩ := h
      subst h1 h2
      refine ⟨(fun y hy => by cases hy; rfl), ?_⟩
      intro i hi
      rcases List.mem_append.mp hi with h3 | h3
      · exact Or.inl h3
      · simp at h3
        simp [funcIds, h3]
  | vUndef =>
      simp [refReplaceValue] at h
      obtain ⟨h1, h2⟩ := h
      subst h1 h2
      exact ⟨(fun y hy => by cases hy), fun i hi => Or.inl hi⟩
  | vBool b =>
      simp [refReplaceValue] at h
      obtain ⟨h1, h2⟩ := h
      subst h1 h2
      exact ⟨(fun y hy => by cases hy; rfl), fun i hi => Or.inl hi⟩
  | vNum q =>
      simp [refReplaceValue] at h
      obtain ⟨h1, h2⟩ := h
      subst h1 h2
      exact ⟨(fun y hy => by cases hy; rfl), fun i hi => Or.inl hi⟩

/-- The serializer's output contains no function values (they were all
replaced by placeholder strings), and every identity on the side table comes
from the prior table or from a function embedded in the input. -/
theorem serVal_funcs (reg : Registry) (rf : String → String) (v : JVal)
    (funcs : List Nat) :
    ∀ out fs1, serVal reg rf v funcs = .ok (out, fs1) →
      funcIds out = [] ∧ ∀ i, i ∈ fs1 → i ∈ funcs ∨ i ∈ funcIds v := by
  refine serVal.induct reg rf
    (fun v funcs => ∀ out fs1, serVal reg rf v funcs = .ok (out, fs1) →
      funcIds out = [] ∧ ∀ i, i ∈ fs1 → i ∈ funcs ∨ i ∈ funcIds v)
    (fun flds funcs => ∀ gs fs1, serFields reg rf flds funcs = .ok (gs, fs1) →
      funcIdsFields gs = [] ∧ ∀ i, i ∈ fs1 → i ∈ funcs ∨ i ∈ funcIdsFields flds)
    (fun xs funcs => ∀ ys fs1, serElems reg rf xs funcs = .ok (ys, fs1) →
      funcIdsElems ys = [] ∧ ∀ i, i ∈ fs1 → i ∈ funcs ∨ i ∈ funcIdsElems xs)
    ?_ ?_ ?_ ?_ ?_ ?_ ?_ ?_ ?_ ?_ ?_ ?_ ?_ ?_ ?_ ?_ ?_ ?_ ?_ ?_ ?_ v funcs
  · intro fid funcs out fs1 h
    simp [serVal] at h
    obtain ⟨h1, h2⟩ := h
    subst h1 h2
    refine ⟨rfl, ?_⟩
    intro i hi
    rcases List.mem_append.mp hi with h3 | h3
    · exact Or.inl h3
    · simp at h3
      simp [funcIds, h3]
  · intro xs funcs ys funcs1 he ih out fs1 h
    simp [serVal, he] at h
    obtain ⟨h1, h2⟩ := h
    subst h1 h2
    obtain ⟨ihA, ihB⟩ := ih ys funcs1 he
    exact ⟨by simpa [funcIds] using ihA, by simpa [funcIds] using ihB⟩
  · intro xs funcs e he ih out fs1 h
    simp [serVal, he] at h
  · intro oid flds funcs gs funcs1 he ih out fs1 h
    simp [serVal, he] at h
    obtain ⟨h1, h2⟩ := h
    subst h1 h2
    obtain ⟨ihA, ihB⟩ := ih gs funcs1 he
    exact ⟨by simpa [funcIds] using ihA, by simpa [funcIds] using ihB⟩
  · intro oid flds funcs e he ih out fs1 h
    simp [serVal, he] at h
  · intro funcs out fs1 h
    simp [serVal] at h
    obtain ⟨h1, h2⟩ := h
    subst h1 h2
    exact ⟨rfl, fun i hi => Or.inl hi⟩
  · intro funcs out fs1 h
    simp [serVal] at h
    obtain ⟨h1, h2⟩ := h
    subst h1 h2
    exact ⟨rfl, fun i hi => Or.inl hi⟩
  · intro b funcs out fs1 h
    simp [serVal] at h
    obtain ⟨h1, h2⟩ := h
    subst h1 h2
    exact ⟨rfl, fun i hi => Or.inl hi⟩
  · intro q funcs out fs1 h
    simp [serVal] at h
    obtain ⟨h1, h2⟩ := h
    subst h1 h2
    exact ⟨rfl, fun i hi => Or.inl hi⟩
  · intro s funcs out fs1 h
    simp [serVal] at h
    obtain ⟨h1, h2⟩ := h
    subst h1 h2
    exact ⟨rfl, fun i hi => Or.inl hi⟩
  · intro funcs ys fs1 h
    simp [serElems] at h
    obtain ⟨h1, h2⟩ := h
    subst h1 h2
    exact ⟨rfl, fun i hi => Or.inl hi⟩
  · intro x rest funcs e he ih ys fs1 h
    simp [serElems, he] at h
  · intro x rest funcs y funcs1 he e he2 ih1 ih3 ys fs1 h
    simp [serElems, he, he2] at h
  · intro x rest funcs y funcs1 he ys0 funcs2 he2 ih1 ih3 ys fs1 h
    simp [serElems, he, he2] at h
    obtain ⟨h1, h2⟩ := h
    subst h1 h2
    obtain ⟨ih1A, ih1B⟩ := ih1 y funcs1 he
    obtain ⟨ih3A, ih3B⟩ := ih3 ys0 funcs2 he2
    constructor
    · cases y <;> simp_all [funcIdsElems, funcIds]
    · intro i hi
      rcases ih3B i hi with h3 | h3
      · rcases ih1B i h3 with h4 | h4
        · exact Or.inl h4
        · exact Or.inr (by simp [funcIdsElems, List.mem_append, h4])
      · exact Or.inr (by simp [funcIdsElems, List.mem_append, h3])
  · intro funcs gs fs1 h
    simp [serFields] at h
    obtain ⟨h1, h2⟩ := h
    subst h1 h2
    exact ⟨rfl, fun i hi => Or.inl hi⟩
  · intro v rest funcs e he gs fs1 h
    simp [serFields, he] at h
  · intro v rest funcs res funcs1 he e he2 ih gs fs1 h
    simp [serFields, he, he2] at h
  · intro v rest funcs res funcs1 he gs0 funcs2 he2 ih gs fs1 h
    simp [serFields, he, he2] at h
    obtain ⟨h1, h2⟩ := h
    subst h1 h2
    obtain ⟨refA, refB⟩ := refReplaceValue_funcs reg rf v funcs res funcs1 he
    obtain ⟨ihA, ihB⟩ := ih gs0 funcs2 he2
    constructor
    · cases res with
      | none => simpa [funcIdsFields] using ihA
      | some y =>
          rw [funcIdsFields_append]
          simp [funcIdsFields, refA y rfl, ihA]
    · intro i hi
      rcases ihB i hi with h3 | h3
      · rcases refB i h3 with h4 | h4
        · exact Or.inl h4
        · exact Or.inr (by simp [funcIdsFields, List.mem_append, h4])
      · exact Or.inr (by simp [funcIdsFields, List.mem_append, h3])
  · intro k v rest funcs hk e he ih gs fs1 h
    simp [serFields, hk, he] at h
  · intro k v rest funcs hk y funcs1 he e he2 ih1 ih2 gs fs1 h
    simp [serFields, hk, he, he2] at h
  · intro k v rest funcs hk y funcs1 he gs0 funcs2 he2 ih1 ih2 gs fs1 h
    simp [serFields, hk, he, he2] at h
    obtain ⟨h1, h2⟩ := h
    subst h1 h2
    obtain ⟨ih1A, ih1B⟩ := ih1 y funcs1 he
    obtain ⟨ih2A, ih2B⟩ := ih2 gs0 funcs2 he2
    constructor
    · cases y <;> simp_all [funcIdsFields, funcIds, funcIdsFields_append]
    · intro i hi
      rcases ih2B i hi with h3 | h3
      · rcases ih1B i h3 with h4 | h4
        · exact Or.inl h4
        · exact Or.inr (by simp [funcIdsFields, List.mem_append, h4])
      · exact Or.inr (by simp [funcIdsFields, List.mem_append, h3])

/-- Every function the reviver installs comes from the side table or was
already embedded in the parsed value. -/
theorem reviveVal_funcs (funcs : List Nat) (w : JVal) :
    ∀ i, i ∈ funcIds (reviveVal funcs w) → i ∈ funcs ∨ i ∈ funcIds w := by
  refine reviveVal.induct funcs
    (fun w => ∀ i, i ∈ funcIds (reviveVal funcs w) → i ∈ funcs ∨ i ∈ funcIds w)
    (fun flds => ∀ i, i ∈ funcIdsFields (reviveFields funcs flds) →
      i ∈ funcs ∨ i ∈ funcIdsFields flds)
    (fun xs => ∀ i, i ∈ funcIdsElems (reviveElems funcs xs) →
      i ∈ funcs ∨ i ∈ funcIdsElems xs)
    ?_ ?_ ?_ ?_ ?_ ?_ ?_ ?_ ?_ ?_ ?_ ?_ ?_ ?_ ?_ w
  · intro s tok h1 fid h2 fid1 h3 i hi
    simp [reviveVal, h1, h2, h3, funcIds] at hi
    subst hi
    exact Or.inl (List.getElem?_mem h3)
  · intro s tok h1 fid h2 h3 i hi
    simp [reviveVal, h1, h2, h3, funcIds] at hi
  · intro s tok h1 h2 i hi
    simp [reviveVal, h1, h2, funcIds] at hi
  · intro s h1 i hi
    simp [reviveVal, h1, funcIds] at hi
  · intro xs ih i hi
    simp only [reviveVal, funcIds] at hi
    rcases ih i hi with h | h
    · exact Or.inl h
    · exact Or.inr (by simpa [funcIds] using h)
  · intro oid flds ih i hi
    simp only [reviveVal, funcIds] at hi
    rcases ih i hi with h | h
    · exact Or.inl h
    · exact Or.inr (by simpa [funcIds] using h)
  · intro i hi
    simp [reviveVal, funcIds] at hi
  · intro i hi
    simp [reviveVal, funcIds] at hi
  · intro b i hi
    simp [reviveVal, funcIds] at hi
  · intro q i hi
    simp [reviveVal, funcIds] at hi
  · intro fid i hi
    simp [reviveVal, funcIds] at hi
    exact Or.inr (by simp [funcIds, hi])
  · intro i hi
    simp [reviveElems, funcIdsElems] at hi
  · intro x rest ih1 ih3 i hi
    simp only [reviveElems, funcIdsElems] at hi
    rcases List.mem_append.mp hi with h | h
    · rcases ih1 i h with h2 | h2
      · exact Or.inl h2
      · exact Or.inr (by simp [funcIdsElems, List.mem_append, h2])
    · rcases ih3 i h with h2 | h2
      · exact Or.inl h2
      · exact Or.inr (by simp [funcIdsElems, List.mem_append, h2])
  · intro i hi
    simp [reviveFields, funcIdsFields] at hi
  · intro k v rest ih1 ih2 i hi
    simp only [reviveFields, funcIdsFields_append] at hi
    rcases List.mem_append.mp hi with h | h
    · have hin : i ∈ funcIds (reviveVal funcs v) := by
        cases hrv : reviveVal funcs v <;> rw [hrv] at h <;>
          simp_all [funcIdsFields, funcIds]
      rcases ih1 i hin with h2 | h2
      · exact Or.inl h2
      · exact Or.inr (by simp [funcIdsFields, List.mem_append, h2])
    · rcases ih2 i h with h2 | h2
      · exact Or.inl h2
      · exact Or.inr (by simp [funcIdsFields, List.mem_append, h2])

theorem mem_funcIds_objFields (pv : JVal) (i : Nat)
    (h : i ∈ funcIdsFields (objFields pv)) : i ∈ funcIds pv := by
  cases pv <;> simp_all [objFields, funcIdsFields, funcIds]

theorem mem_funcIds_mergeProps (flds : List (String × JVal)) (pv : JVal)
    (i : Nat) (h : i ∈ funcIds (mergeProps (jGet flds "properties") pv)) :
    i ∈ funcIdsFields flds ∨ i ∈ funcIds pv := by
  cases hq : jGet flds "properties" with
  | none =>
      rw [hq] at h
      simp only [mergeProps, funcIds] at h
      rcases mem_funcIds_objAssign (objFields pv) [] i h with h2 | h2
      · simp [funcIdsFields] at h2
      · exact Or.inr (mem_funcIds_objFields pv i h2)
  | some u =>
      rw [hq] at h
      cases u with
      | vObj poid qfs =>
          simp only [mergeProps, funcIds] at h
          rcases mem_funcIds_objAssign (objFields pv) qfs i h with h2 | h2
          · exact Or.inl (mem_funcIds_jGet flds "properties" (vObj poid qfs) i hq
              (by simpa [funcIds] using h2))
          · exact Or.inr (mem_funcIds_objFields pv i h2)
      | vNull =>
          simp only [mergeProps, funcIds] at h
          rcases mem_funcIds_objAssign (objFields pv) [] i h with h2 | h2
          · simp [funcIdsFields] at h2
          · exact Or.inr (mem_funcIds_objFields pv i h2)
      | vUndef =>
          simp only [mergeProps, funcIds] at h
          rcases mem_funcIds_objAssign (objFields pv) [] i h with h2 | h2
          · simp [funcIdsFields] at h2
          · exact Or.inr (mem_funcIds_objFields pv i h2)
      | vBool b =>
          simp only [mergeProps, funcIds] at h
          rcases mem_funcIds_objAssign (objFields pv) [] i h with h2 | h2
          · simp [funcIdsFields] at h2
          · exact Or.inr (mem_funcIds_objFields pv i h2)
      | vNum q =>
          simp only [mergeProps, funcIds] at h
          rcases mem_funcIds_objAssign (objFields pv) [] i h with h2 | h2
          · simp [funcIdsFields] at h2
          · exact Or.inr (mem_funcIds_objFields pv i h2)
      | vStr s =>
          simp only [mergeProps, funcIds] at h
          rcases mem_funcIds_objAssign (objFields pv) [] i h with h2 | h2
          · simp [funcIdsFields] at h2
          · exact Or.inr (mem_funcIds_objFields pv i h2)
      | vFunc fid =>
          simp only [mergeProps, funcIds] at h
          rcases mem_funcIds_objAssign (objFields pv) [] i h with h2 | h2
          · simp [funcIdsFields] at h2
          · exact Or.inr (mem_funcIds_objFields pv i h2)
      | vArr xs =>
          simp only [mergeProps, funcIds] at h
          rcases mem_funcIds_objAssign (objFields pv) [] i h with h2 | h2
          · simp [funcIdsFields] at h2
          · exact Or.inr (mem_funcIds_objFields pv i h2)

theorem mem_funcIds_oasStepOne (flds : List (String × JVal)) (k : String)
    (i : Nat) (h : i ∈ funcIdsFields (oasStepOne flds k)) :
    i ∈ funcIdsFields flds := by
  unfold oasStepOne at h
  split at h
  · exact mem_funcIds_jErase _ _ _ h
  · split at h
    · rename_i pv hp
      have h2 := mem_funcIds_jErase _ _ _ h
      rcases mem_funcIds_jSet _ _ _ _ h2 with h3 | h3
      · exact h3
      · rcases mem_funcIds_mergeProps flds pv i h3 with h4 | h4
        · exact h4
        · exact mem_funcIds_jGet flds "patternProperties" pv i (by assumption) h4
    · exact h
  · split at h
    · rename_i cv hc
      have h2 := mem_funcIds_jErase _ _ _ h
      rcases mem_funcIds_jSet _ _ _ _ h2 with h3 | h3
      · exact h3
      · have h4 : i ∈ funcIds cv := by
          simpa [funcIds, funcIdsElems] using h3
        exact mem_funcIds_jGet flds "const" cv i hc h4
    · exact h
  · split at h
    · rename_i nv hn
      have h2 := mem_funcIds_jErase _ _ _ h
      rcases mem_funcIds_jSet _ _ _ _ h2 with h3 | h3
      · rcases mem_funcIds_jSet _ _ _ _ h3 with h4 | h4
        · exact h4
        · simp [nullableDesc, funcIds] at h4
      · have h4 : i ∈ funcIds nv := by
          simpa [funcIds, funcIdsElems, funcIdsFields] using h3
        exact mem_funcIds_jGet flds "x-nullable" nv i hn h4
    · exact h
  · exact mem_funcIds_jErase _ _ _ h
  · exact h

theorem mem_funcIds_jsStepOne (flds : List (String × JVal)) (k : String)
    (i : Nat) (h : i ∈ funcIdsFields (jsStepOne flds k)) :
    i ∈ funcIdsFields flds := by
  unfold jsStepOne at h
  split at h
  · split at h
    · rename_i nv hn
      have h2 := mem_funcIds_jErase _ _ _ h
      rcases mem_funcIds_jSet _ _ _ _ h2 with h3 | h3
      · exact h3
      · have h4 : i ∈ funcIds nv := by
          simpa [funcIds, funcIdsElems, funcIdsFields] using h3
        exact mem_funcIds_jGet flds "x-nullable" nv i hn h4
    · exact h
  · exact h

theorem mem_funcIds_stepFold (step : List (String × JVal) → String → List (String × JVal))
    (hstep : ∀ flds k i, i ∈ funcIdsFields (step flds k) → i ∈ funcIdsFields flds)
    (ks : List String) :
    ∀ (flds : List (String × JVal)) (i : Nat),
      i ∈ funcIdsFields (ks.foldl step flds) → i ∈ funcIdsFields flds := by
  induction ks with
  | nil => intro flds i h; simpa using h
  | cons k rest ih =>
      intro flds i h
      exact hstep flds k i (ih (step flds k) i h)

theorem mem_funcIds_oasWalk (u : JVal) :
    ∀ i, i ∈ funcIds (oasWalk u) → i ∈ funcIds u := by
  refine oasWalk.induct
    (fun u => ∀ i, i ∈ funcIds (oasWalk u) → i ∈ funcIds u)
    (fun flds => ∀ i, i ∈ funcIdsFields (oasWalkFields flds) →
      i ∈ funcIdsFields flds)
    (fun xs => ∀ i, i ∈ funcIdsElems (oasWalkElems xs) → i ∈ funcIdsElems xs)
    ?_ ?_ ?_ ?_ ?_ ?_ ?_ ?_ ?_ ?_ ?_ ?_ u
  · intro xs ih i hi
    simp only [oasWalk, funcIds] at hi ⊢
    exact ih i hi
  · intro oid flds ih i hi
    simp only [oasWalk, funcIds] at hi ⊢
    exact ih i (mem_funcIds_stepFold oasStepOne mem_funcIds_oasStepOne _ _ i hi)
  · intro i hi
    simpa [oasWalk, funcIds] using hi
  · intro i hi
    simpa [oasWalk, funcIds] using hi
  · intro b i hi
    simpa [oasWalk, funcIds] using hi
  · intro q i hi
    simpa [oasWalk, funcIds] using hi
  · intro s i hi
    simpa [oasWalk, funcIds] using hi
  · intro fid i hi
    simpa [oasWalk, funcIds] using hi
  · intro i hi
    simpa [oasWalkElems, funcIdsElems] using hi
  · intro x rest ih1 ih3 i hi
    simp only [oasWalkElems, funcIdsElems] at hi ⊢
    rcases List.mem_append.mp hi with h | h
    · exact List.mem_append.mpr (Or.inl (ih1 i h))
    · exact List.mem_append.mpr (Or.inr (ih3 i h))
  · intro i hi
    simpa [oasWalkFields, funcIdsFields] using hi
  · intro k v rest ih1 ih2 i hi
    simp only [oasWalkFields, funcIdsFields] at hi ⊢
    rcases List.mem_append.mp hi with h | h
    · exact List.mem_append.mpr (Or.inl (ih1 i h))
    · exact List.mem_append.mpr (Or.inr (ih2 i h))

theorem mem_funcIds_jsWalk (u : JVal) :
    ∀ i, i ∈ funcIds (jsWalk u) → i ∈ funcIds u := by
  refine jsWalk.induct
    (fun u => ∀ i, i ∈ funcIds (jsWalk u) → i ∈ funcIds u)
    (fun flds => ∀ i, i ∈ funcIdsFields (jsWalkFields flds) →
      i ∈ funcIdsFields flds)
    (fun xs => ∀ i, i ∈ funcIdsElems (jsWalkElems xs) → i ∈ funcIdsElems xs)
    ?_ ?_ ?_ ?_ ?_ ?_ ?_ ?_ ?_ ?_ ?_ ?_ u
  · intro xs ih i hi
    simp only [jsWalk, funcIds] at hi ⊢
    exact ih i hi
  · intro oid flds ih i hi
    simp only [jsWalk, funcIds] at hi ⊢
    exact ih i (mem_funcIds_stepFold jsStepOne mem_funcIds_jsStepOne _ _ i hi)
  · intro i hi
    simpa [jsWalk, funcIds] using hi
  · intro i hi
    simpa [jsWalk, funcIds] using hi
  · intro b i hi
    simpa [jsWalk, funcIds] using hi
  · intro q i hi
    simpa [jsWalk, funcIds] using hi
  · intro s i hi
    simpa [jsWalk, funcIds] using hi
  · intro fid i hi
    simpa [jsWalk, funcIds] using hi
  · intro i hi
    simpa [jsWalkElems, funcIdsElems] using hi
  · intro x rest ih1 ih3 i hi
    simp only [jsWalkElems, funcIdsElems] at hi ⊢
    rcases List.mem_append.mp hi with h | h
    · exact List.mem_append.mpr (Or.inl (ih1 i h))
    · exact List.mem_append.mpr (Or.inr (ih3 i h))
  · intro i hi
    simpa [jsWalkFields, funcIdsFields] using hi
  · intro k v rest ih1 ih2 i hi
    simp only [jsWalkFields, funcIdsFields] at hi ⊢
    rcases List.mem_append.mp hi with h | h
    · exact List.mem_append.mpr (Or.inl (ih1 i h))
    · exact List.mem_append.mpr (Or.inr (ih2 i h))

theorem objIdsFields_append (a b : List (String × JVal)) :
    objIdsFields (a ++ b) = objIdsFields a ++ objIdsFields b := by
  induction a with
  | nil => simp [objIdsFields]
  | cons p rest ih =>
      obtain ⟨k, v⟩ := p
      simp [objIdsFields, ih]

theorem mem_objIds_jGet (flds : List (String × JVal)) (k : String) (v : JVal)
    (i : Nat) (h : jGet flds k = some v) (hi : i ∈ objIds v) :
    i ∈ objIdsFields flds := by
  induction flds with
  | nil => simp [jGet] at h
  | cons p rest ih =>
      obtain ⟨k1, v1⟩ := p
      by_cases h1 : k1 = k
      · simp [jGet, h1] at h
        subst h
        simp [objIdsFields, hi]
      · simp [jGet, h1] at h
        simp [objIdsFields, ih h]

theorem mem_objIds_jSet (flds : List (String × JVal)) (k : String) (v : JVal)
    (i : Nat) (h : i ∈ objIdsFields (jSet flds k v)) :
    i ∈ objIdsFields flds ∨ i ∈ objIds v := by
  induction flds with
  | nil =>
      simp [jSet, objIdsFields] at h
      exact Or.inr h
  | cons p rest ih =>
      obtain ⟨k1, v1⟩ := p
      by_cases h1 : k1 = k
      · simp [jSet, h1, objIdsFields] at h ⊢
        tauto
      · simp [jSet, h1, objIdsFields] at h ⊢
        rcases h with h | h
        · tauto
        · rcases ih h with h2 | h2 <;> tauto

theorem mem_objIds_jErase (flds : List (String × JVal)) (k : String)
    (i : Nat) (h : i ∈ objIdsFields (jErase flds k)) :
    i ∈ objIdsFields flds := by
  induction flds with
  | nil => simpa [jErase] using h
  | cons p rest ih =>
      obtain ⟨k1, v1⟩ := p
      by_cases h1 : k1 = k
      · simp [jErase, h1] at h
        simp [objIdsFields, ih h]
      · simp [jErase, h1, objIdsFields] at h ⊢
        rcases h with h | h
        · tauto
        · exact Or.inr (ih h)

theorem mem_objIds_objAssign (s t : List (String × JVal)) (i : Nat)
    (h : i ∈ objIdsFields (objAssign t s)) :
    i ∈ objIdsFields t ∨ i ∈ objIdsFields s := by
  induction s generalizing t with
  | nil => simpa [objAssign] using Or.inl h
  | cons p rest ih =>
      obtain ⟨k1, v1⟩ := p
      simp only [objAssign, List.foldl_cons] at h
      rcases ih (jSet t k1 v1) (by simpa [objAssign] using h) with h2 | h2
      · rcases mem_objIds_jSet t k1 v1 i h2 with h3 | h3
        · exact Or.inl h3
        · simp [objIdsFields, h3]
      · simp [objIdsFields]
        tauto

theorem mem_objIds_objFields (pv : JVal) (i : Nat)
    (h : i ∈ objIdsFields (objFields pv)) : i ∈ objIds pv := by
  cases pv <;> simp_all [objFields, objIdsFields, objIds]

theorem mem_objIds_mergeProps (flds : List (String × JVal)) (pv : JVal)
    (i : Nat) (h : i ∈ objIds (mergeProps (jGet flds "properties") pv)) :
    i = 0 ∨ i ∈ objIdsFields flds ∨ i ∈ objIds pv := by
  cases hq : jGet flds "properties" with
  | none =>
      rw [hq] at h
      simp only [mergeProps, objIds, List.mem_cons] at h
      rcases h with h | h
      · exact Or.inl h
      · rcases mem_objIds_objAssign (objFields pv) [] i h with h2 | h2
        · simp [objIdsFields] at h2
        · exact Or.inr (Or.inr (mem_objIds_objFields pv i h2))
  | some u =>
      rw [hq] at h
      have hgen : ∀ (z : Nat) (zfs : List (String × JVal)),
          i ∈ objIds (vObj z (objAssign zfs (objFields pv))) →
          (i = z ∨ i ∈ objIdsFields zfs) ∨ i ∈ objIds pv := by
        intro z zfs hz
        simp only [objIds, List.mem_cons] at hz
        rcases hz with hz | hz
        · exact Or.inl (Or.inl hz)
        · rcases mem_objIds_objAssign (objFields pv) zfs i hz with h2 | h2
          · exact Or.inl (Or.inr h2)
          · exact Or.inr (mem_objIds_objFields pv i h2)
      cases u with
      | vObj poid qfs =>
          simp only [mergeProps] at h
          rcases hgen poid qfs h with (h2 | h2) | h2
          · subst h2
            exact Or.inr (Or.inl (mem_objIds_jGet flds "properties"
              (vObj i qfs) i hq (by simp [objIds])))
          · exact Or.inr (Or.inl (mem_objIds_jGet flds "properties"
              (vObj poid qfs) i hq (by simp [objIds, h2])))
          · exact Or.inr (Or.inr h2)
      | vNull =>
          simp only [mergeProps] at h
          rcases hgen 0 [] h with (h2 | h2) | h2
          · exact Or.inl h2
          · simp [objIdsFields] at h2
          · exact Or.inr (Or.inr h2)
      | vUndef =>
          simp only [mergeProps] at h
          rcases hgen 0 [] h with (h2 | h2) | h2
          · exact Or.inl h2
          · simp [objIdsFields] at h2
          · exact Or.inr (Or.inr h2)
      | vBool b =>
          simp only [mergeProps] at h
          rcases hgen 0 [] h with (h2 | h2) | h2
          · exact Or.inl h2
          · simp [objIdsFields] at h2
          · exact Or.inr (Or.inr h2)
      | vNum q =>
          simp only [mergeProps] at h
          rcases hgen 0 [] h with (h2 | h2) | h2
          · exact Or.inl h2
          · simp [objIdsFields] at h2
          · exact Or.inr (Or.inr h2)
      | vStr str =>
          simp only [mergeProps] at h
          rcases hgen 0 [] h with (h2 | h2) | h2
          · exact Or.inl h2
          · simp [objIdsFields] at h2
          · exact Or.inr (Or.inr h2)
      | vFunc fid =>
          simp only [mergeProps] at h
          rcases hgen 0 [] h with (h2 | h2) | h2
          · exact Or.inl h2
          · simp [objIdsFields] at h2
          · exact Or.inr (Or.inr h2)
      | vArr xs =>
          simp only [mergeProps] at h
          rcases hgen 0 [] h with (h2 | h2) | h2
          · exact Or.inl h2
          · simp [objIdsFields] at h2
          · exact Or.inr (Or.inr h2)

theorem mem_objIds_oasStepOne (flds : List (String × JVal)) (k : String)
    (i : Nat) (h : i ∈ objIdsFields (oasStepOne flds k)) :
    i = 0 ∨ i ∈ objIdsFields flds := by
  unfold oasStepOne at h
  split at h
  · exact Or.inr (mem_objIds_jErase _ _ _ h)
  · split at h
    · rename_i pv hp
      have h2 := mem_objIds_jErase _ _ _ h
      rcases mem_objIds_jSet _ _ _ _ h2 with h3 | h3
      · exact Or.inr h3
      · rcases mem_objIds_mergeProps flds pv i h3 with h4 | h4 | h4
        · exact Or.inl h4
        · exact Or.inr h4
        · exact Or.inr (mem_objIds_jGet flds "patternProperties" pv i hp h4)
    · exact Or.inr h
  · split at h
    · rename_i cv hc
      have h2 := mem_objIds_jErase _ _ _ h
      rcases mem_objIds_jSet _ _ _ _ h2 with h3 | h3
      · exact Or.inr h3
      · have h4 : i ∈ objIds cv := by
          simpa [objIds, objIdsElems] using h3
        exact Or.inr (mem_objIds_jGet flds "const" cv i hc h4)
    · exact Or.inr h
  · split at h
    · rename_i nv hn
      have h2 := mem_objIds_jErase _ _ _ h
      rcases mem_objIds_jSet _ _ _ _ h2 with h3 | h3
      · rcases mem_objIds_jSet _ _ _ _ h3 with h4 | h4
        · exact Or.inr h4
        · simp [nullableDesc, objIds] at h4
      · have h4 : i ∈ objIds nv ∨ i = 0 := by
          simpa [objIds, objIdsElems, objIdsFields] using h3
        rcases h4 with h4 | h4
        · exact Or.inr (mem_objIds_jGet flds "x-nullable" nv i hn h4)
        · exact Or.inl h4
    · exact Or.inr h
  · exact Or.inr (mem_objIds_jErase _ _ _ h)
  · exact Or.inr h

theorem mem_objIds_jsStepOne (flds : List (String × JVal)) (k : String)
    (i : Nat) (h : i ∈ objIdsFields (jsStepOne flds k)) :
    i = 0 ∨ i ∈ objIdsFields flds := by
  unfold jsStepOne at h
  split at h
  · split at h
    · rename_i nv hn
      have h2 := mem_objIds_jErase _ _ _ h
      rcases mem_objIds_jSet _ _ _ _ h2 with h3 | h3
      · exact Or.inr h3
      · have h4 : i ∈ objIds nv ∨ i = 0 := by
          simpa [objIds, objIdsElems, objIdsFields] using h3
        rcases h4 with h4 | h4
        · exact Or.inr (mem_objIds_jGet flds "x-nullable" nv i hn h4)
        · exact Or.inl h4
    · exact Or.inr h
  · exact Or.inr h

theorem mem_objIds_stepFold
    (step : List (String × JVal) → String → List (String × JVal))
    (hstep : ∀ flds k i, i ∈ objIdsFields (step flds k) →
      i = 0 ∨ i ∈ objIdsFields flds)
    (ks : List String) :
    ∀ (flds : List (String × JVal)) (i : Nat),
      i ∈ objIdsFields (ks.foldl step flds) → i = 0 ∨ i ∈ objIdsFields flds := by
  induction ks with
  | nil => intro flds i h; exact Or.inr (by simpa using h)
  | cons k rest ih =>
      intro flds i h
      rcases ih (step flds k) i h with h2 | h2
      · exact Or.inl h2
      · exact hstep flds k i h2

theorem mem_objIds_oasWalk (u : JVal) :
    ∀ i, i ∈ objIds (oasWalk u) → i = 0 ∨ i ∈ objIds u := by
  refine oasWalk.induct
    (fun u => ∀ i, i ∈ objIds (oasWalk u) → i = 0 ∨ i ∈ objIds u)
    (fun flds => ∀ i, i ∈ objIdsFields (oasWalkFields flds) →
      i = 0 ∨ i ∈ objIdsFields flds)
    (fun xs => ∀ i, i ∈ objIdsElems (oasWalkElems xs) →
      i = 0 ∨ i ∈ objIdsElems xs)
    ?_ ?_ ?_ ?_ ?_ ?_ ?_ ?_ ?_ ?_ ?_ ?_ u
  · intro xs ih i hi
    simp only [oasWalk, objIds] at hi ⊢
    exact ih i hi
  · intro oid flds ih i hi
    simp only [oasWalk, objIds, List.mem_cons] at hi ⊢
    rcases hi with hi | hi
    · exact Or.inr (Or.inl hi)
    · rcases mem_objIds_stepFold oasStepOne mem_objIds_oasStepOne _ _ i hi
        with h2 | h2
      · exact Or.inl h2
      · rcases ih i h2 with h3 | h3
        · exact Or.inl h3
        · exact Or.inr (Or.inr h3)
  · intro i hi
    simpa [oasWalk, objIds] using hi
  · intro i hi
    simpa [oasWalk, objIds] using hi
  · intro b i hi
    simpa [oasWalk, objIds] using hi
  · intro q i hi
    simpa [oasWalk, objIds] using hi
  · intro s i hi
    simpa [oasWalk, objIds] using hi
  · intro fid i hi
    simpa [oasWalk, objIds] using hi
  · intro i hi
    simpa [oasWalkElems, objIdsElems] using hi
  · intro x rest ih1 ih3 i hi
    simp only [oasWalkElems, objIdsElems] at hi ⊢
    rcases List.mem_append.mp hi with h | h
    · rcases ih1 i h with h2 | h2
      · exact Or.inl h2
      · exact Or.inr (List.mem_append.mpr (Or.inl h2))
    · rcases ih3 i h with h2 | h2
      · exact Or.inl h2
      · exact Or.inr (List.mem_append.mpr (Or.inr h2))
  · intro i hi
    simpa [oasWalkFields, objIdsFields] using hi
  · intro k v rest ih1 ih2 i hi
    simp only [oasWalkFields, objIdsFields] at hi ⊢
    rcases List.mem_append.mp hi with h | h
    · rcases ih1 i h with h2 | h2
      · exact Or.inl h2
      · exact Or.inr (List.mem_append.mpr (Or.inl h2))
    · rcases ih2 i h with h2 | h2
      · exact Or.inl h2
      · exact Or.inr (List.mem_append.mpr (Or.inr h2))

theorem mem_objIds_jsWalk (u : JVal) :
    ∀ i, i ∈ objIds (jsWalk u) → i = 0 ∨ i ∈ objIds u := by
  refine jsWalk.induct
    (fun u => ∀ i, i ∈ objIds (jsWalk u) → i = 0 ∨ i ∈ objIds u)
    (fun flds => ∀ i, i ∈ objIdsFields (jsWalkFields flds) →
      i = 0 ∨ i ∈ objIdsFields flds)
    (fun xs => ∀ i, i ∈ objIdsElems (jsWalkElems xs) →
      i = 0 ∨ i ∈ objIdsElems xs)
    ?_ ?_ ?_ ?_ ?_ ?_ ?_ ?_ ?_ ?_ ?_ ?_ u
  · intro xs ih i hi
    simp only [jsWalk, objIds] at hi ⊢
    exact ih i hi
  · intro oid flds ih i hi
    simp only [jsWalk, objIds, List.mem_cons] at hi ⊢
    rcases hi with hi | hi
    · exact Or.inr (Or.inl hi)
    · rcases mem_objIds_stepFold jsStepOne mem_objIds_jsStepOne _ _ i hi
        with h2 | h2
      · exact Or.inl h2
      · rcases ih i h2 with h3 | h3
        · exact Or.inl h3
        · exact Or.inr (Or.inr h3)
  · intro i hi
    simpa [jsWalk, objIds] using hi
  · intro i hi
    simpa [jsWalk, objIds] using hi
  · intro b i hi
    simpa [jsWalk, objIds] using hi
  · intro q i hi
    simpa [jsWalk, objIds] using hi
  · intro s i hi
    simpa [jsWalk, objIds] using hi
  · intro fid i hi
    simpa [jsWalk, objIds] using hi
  · intro i hi
    simpa [jsWalkElems, objIdsElems] using hi
  · intro x rest ih1 ih3 i hi
    simp only [jsWalkElems, objIdsElems] at hi ⊢
    rcases List.mem_append.mp hi with h | h
    · rcases ih1 i h with h2 | h2
      · exact Or.inl h2
      · exact Or.inr (List.mem_append.mpr (Or.inl h2))
    · rcases ih3 i h with h2 | h2
      · exact Or.inl h2
      · exact Or.inr (List.mem_append.mpr (Or.inr h2))
  · intro i hi
    simpa [jsWalkFields, objIdsFields] using hi
  · intro k v rest ih1 ih2 i hi
    simp only [jsWalkFields, objIdsFields] at hi ⊢
    rcases List.mem_append.mp hi with h | h
    · rcases ih1 i h with h2 | h2
      · exact Or.inl h2
      · exact Or.inr (List.mem_append.mpr (Or.inl h2))
    · rcases ih2 i h with h2 | h2
      · exact Or.inl h2
      · exact Or.inr (List.mem_append.mpr (Or.inr h2))

theorem refReplaceValue_objIds (reg : Registry) (rf : String → String)
    (v : JVal) (funcs : List Nat) (res : Option JVal) (funcs1 : List Nat)
    (h : refReplaceValue reg rf v funcs = .ok (res, funcs1)) :
    ∀ y, res = some y → objIds y = [] := by
  cases v with
  | vNull => simp [refReplaceValue] at h
  | vArr xs => simp [refReplaceValue] at h
  | vObj tid flds =>
      cases hr : regFind reg tid with
      | some tok =>
          simp [refReplaceValue, hr] at h
          obtain ⟨h1, h2⟩ := h
          subst h1
          exact fun y hy => by cases hy; rfl
      | none => simp [refReplaceValue, hr] at h
  | vStr s =>
      by_cases hb : braceDelimited s
      · simp [refReplaceValue, hb] at h
        obtain ⟨h1, h2⟩ := h
        subst h1
        exact fun y hy => by cases hy; rfl
      · simp [refReplaceValue, hb] at h
        obtain ⟨h1, h2⟩ := h
        subst h1
        exact fun y hy => by cases hy; rfl
  | vFunc fid =>
      simp [refReplaceValue] at h
      obtain ⟨h1, h2⟩ := h
      subst h1
      exact fun y hy => by cases hy; rfl
  | vUndef =>
      simp [refReplaceValue] at h
      obtain ⟨h1, h2⟩ := h
      subst h1
      exact fun y hy => by cases hy
  | vBool b =>
      simp [refReplaceValue] at h
      obtain ⟨h1, h2⟩ := h
      subst h1
      exact fun y hy => by cases hy; rfl
  | vNum q =>
      simp [refReplaceValue] at h
      obtain ⟨h1, h2⟩ := h
      subst h1
      exact fun y hy => by cases hy; rfl

/-- Every object node the serializer emits is a fresh copy: it carries the
reserved identity tag `0` (`JSON.parse` allocates new objects). -/
theorem serVal_objIds (reg : Registry) (rf : String → String) (v : JVal)
    (funcs : List Nat) :
    ∀ out fs1, serVal reg rf v funcs = .ok (out, fs1) →
      ∀ i, i ∈ objIds out → i = 0 := by
  refine serVal.induct reg rf
    (fun v funcs => ∀ out fs1, serVal reg rf v funcs = .ok (out, fs1) →
      ∀ i, i ∈ objIds out → i = 0)
    (fun flds funcs => ∀ gs fs1, serFields reg rf flds funcs = .ok (gs, fs1) →
      ∀ i, i ∈ objIdsFields gs → i = 0)
    (fun xs funcs => ∀ ys fs1, serElems reg rf xs funcs = .ok (ys, fs1) →
      ∀ i, i ∈ objIdsElems ys → i = 0)
    ?_ ?_ ?_ ?_ ?_ ?_ ?_ ?_ ?_ ?_ ?_ ?_ ?_ ?_ ?_ ?_ ?_ ?_ ?_ ?_ ?_ v funcs
  · intro fid funcs out fs1 h
    simp [serVal] at h
    obtain ⟨h1, h2⟩ := h
    subst h1
    intro i hi
    simp [objIds] at hi
  · intro xs funcs ys funcs1 he ih out fs1 h
    simp [serVal, he] at h
    obtain ⟨h1, h2⟩ := h
    subst h1
    intro i hi
    exact ih ys funcs1 he i (by simpa [objIds] using hi)
  · intro xs funcs e he ih out fs1 h
    simp [serVal, he] at h
  · intro oid flds funcs gs funcs1 he ih out fs1 h
    simp [serVal, he] at h
    obtain ⟨h1, h2⟩ := h
    subst h1
    intro i hi
    simp only [objIds, List.mem_cons] at hi
    rcases hi with hi | hi
    · exact hi
    · exact ih gs funcs1 he i hi
  · intro oid flds funcs e he ih out fs1 h
    simp [serVal, he] at h
  · intro funcs out fs1 h
    simp [serVal] at h
    obtain ⟨h1, h2⟩ := h
    subst h1
    intro i hi
    simp [objIds] at hi
  · intro funcs out fs1 h
    simp [serVal] at h
    obtain ⟨h1, h2⟩ := h
    subst h1
    intro i hi
    simp [objIds] at hi
  · intro b funcs out fs1 h
    simp [serVal] at h
    obtain ⟨h1, h2⟩ := h
    subst h1
    intro i hi
    simp [objIds] at hi
  · intro q funcs out fs1 h
    simp [serVal] at h
    obtain ⟨h1, h2⟩ := h
    subst h1
    intro i hi
    simp [objIds] at hi
  · intro s funcs out fs1 h
    simp [serVal] at h
    obtain ⟨h1, h2⟩ := h
    subst h1
    intro i hi
    simp [objIds] at hi
  · intro funcs ys fs1 h
    simp [serElems] at h
    obtain ⟨h1, h2⟩ := h
    subst h1
    intro i hi
    simp [objIdsElems] at hi
  · intro x rest funcs e he ih ys fs1 h
    simp [serElems, he] at h
  · intro x rest funcs y funcs1 he e he2 ih1 ih3 ys fs1 h
    simp [serElems, he, he2] at h
  · intro x rest funcs y funcs1 he ys0 funcs2 he2 ih1 ih3 ys fs1 h
    simp [serElems, he, he2] at h
    obtain ⟨h1, h2⟩ := h
    subst h1
    intro i hi
    simp only [objIdsElems] at hi
    rcases List.mem_append.mp hi with h3 | h3
    · have hy : i ∈ objIds y := by
        cases y <;> simp_all [objIds]
      exact ih1 y funcs1 he i hy
    · exact ih3 ys0 funcs2 he2 i h3
  · intro funcs gs fs1 h
    simp [serFields] at h
    obtain ⟨h1, h2⟩ := h
    subst h1
    intro i hi
    simp [objIdsFields] at hi
  · intro v rest funcs e he gs fs1 h
    simp [serFields, he] at h
  · intro v rest funcs res funcs1 he e he2 ih gs fs1 h
    simp [serFields, he, he2] at h
  · intro v rest funcs res funcs1 he gs0 funcs2 he2 ih gs fs1 h
    simp [serFields, he, he2] at h
    obtain ⟨h1, h2⟩ := h
    subst h1
    intro i hi
    rw [objIdsFields_append] at hi
    rcases List.mem_append.mp hi with h3 | h3
    · cases res with
      | none => simp [objIdsFields] at h3
      | some y =>
          have h4 : i ∈ objIds y := by
            simpa [objIdsFields] using h3
          rw [refReplaceValue_objIds reg rf v funcs (some y) funcs1 he y rfl] at h4
          simp at h4
    · exact ih gs0 funcs2 he2 i h3
  · intro k v rest funcs hk e he ih gs fs1 h
    simp [serFields, hk, he] at h
  · intro k v rest funcs hk y funcs1 he e he2 ih1 ih2 gs fs1 h
    simp [serFields, hk, he, he2] at h
  · intro k v rest funcs hk y funcs1 he gs0 funcs2 he2 ih1 ih2 gs fs1 h
    simp [serFields, hk, he, he2] at h
    obtain ⟨h1, h2⟩ := h
    subst h1
    intro i hi
    rw [objIdsFields_append] at hi
    rcases List.mem_append.mp hi with h3 | h3
    · have hy : i ∈ objIds y := by
        cases y <;> simp_all [objIdsFields, objIds]
      exact ih1 y funcs1 he i hy
    · exact ih2 gs0 funcs2 he2 i h3

/-- The reviver allocates no objects: every object identity of its result was
already in its input. -/
theorem reviveVal_objIds (funcs : List Nat) (w : JVal) :
    ∀ i, i ∈ objIds (reviveVal funcs w) → i ∈ objIds w := by
  refine reviveVal.induct funcs
    (fun w => ∀ i, i ∈ objIds (reviveVal funcs w) → i ∈ objIds w)
    (fun flds => ∀ i, i ∈ objIdsFields (reviveFields funcs flds) →
      i ∈ objIdsFields flds)
    (fun xs => ∀ i, i ∈ objIdsElems (reviveElems funcs xs) →
      i ∈ objIdsElems xs)
    ?_ ?_ ?_ ?_ ?_ ?_ ?_ ?_ ?_ ?_ ?_ ?_ ?_ ?_ ?_ w
  · intro s tok h1 fid h2 fid1 h3 i hi
    simp [reviveVal, h1, h2, h3, objIds] at hi
  · intro s tok h1 fid h2 h3 i hi
    simp [reviveVal, h1, h2, h3, objIds] at hi
  · intro s tok h1 h2 i hi
    simp [reviveVal, h1, h2, objIds] at hi
  · intro s h1 i hi
    simp [reviveVal, h1, objIds] at hi
  · intro xs ih i hi
    simp only [reviveVal, objIds] at hi ⊢
    exact ih i hi
  · intro oid flds ih i hi
    simp only [reviveVal, objIds, List.mem_cons] at hi ⊢
    rcases hi with h | h
    · exact Or.inl h
    · exact Or.inr (ih i h)
  · intro i hi
    simp [reviveVal, objIds] at hi
  · intro i hi
    simp [reviveVal, objIds] at hi
  · intro b i hi
    simp [reviveVal, objIds] at hi
  · intro q i hi
    simp [reviveVal, objIds] at hi
  · intro fid i hi
    simp [reviveVal, objIds] at hi
  · intro i hi
    simp [reviveElems, objIdsElems] at hi
  · intro x rest ih1 ih3 i hi
    simp only [reviveElems, objIdsElems] at hi ⊢
    rcases List.mem_append.mp hi with h | h
    · exact List.mem_append.mpr (Or.inl (ih1 i h))
    · exact List.mem_append.mpr (Or.inr (ih3 i h))
  · intro i hi
    simp [reviveFields, objIdsFields] at hi
  · intro k v rest ih1 ih2 i hi
    simp only [reviveFields, objIdsFields_append] at hi
    rcases List.mem_append.mp hi with h | h
    · have hin : i ∈ objIds (reviveVal funcs v) := by
        cases hrv : reviveVal funcs v <;> rw [hrv] at h <;>
          simp_all [objIdsFields, objIds]
      exact List.mem_append.mpr (Or.inl (ih1 i hin))
    · exact List.mem_append.mpr (Or.inr (ih2 i h))

/-- The copy `schemaRefReplace` returns carries only the fresh identity tag
`0` on its object nodes. -/
theorem schemaRefReplace_objIds (reg : Registry) (rf : String → String)
    (s c : JVal) (h : schemaRefReplace reg rf s = .ok c) :
    ∀ i, i ∈ objIds c → i = 0 := by
  unfold schemaRefReplace at h
  cases hsv : serVal reg rf s [] with
  | error e => rw [hsv] at h; simp at h
  | ok p =>
      obtain ⟨copy, funcs⟩ := p
      rw [hsv] at h
      have hser := serVal_objIds reg rf s [] copy funcs hsv
      have hrev : ∀ i, i ∈ objIds (reviveVal funcs copy) → i = 0 :=
        fun i hi => hser i (reviveVal_objIds funcs copy i hi)
      cases copy with
      | vUndef => simp at h
      | vNull => simp at h; subst h; exact hrev
      | vBool b => simp at h; subst h; exact hrev
      | vNum q => simp at h; subst h; exact hrev
      | vStr str => simp at h; subst h; exact hrev
      | vFunc fid => simp at h; subst h; exact hrev
      | vArr xs => simp at h; subst h; exact hrev
      | vObj oid flds => simp at h; subst h; exact hrev

theorem schemaRefReplace_funcs (reg : Registry) (rf : String → String)
    (s c : JVal) (h : schemaRefReplace reg rf s = .ok c) :
    ∀ i, i ∈ funcIds c → i ∈ funcIds s := by
  unfold schemaRefReplace at h
  cases hsv : serVal reg rf s [] with
  | error e => rw [hsv] at h; simp at h
  | ok p =>
      obtain ⟨copy, funcs⟩ := p
      rw [hsv] at h
      obtain ⟨hA, hB⟩ := serVal_funcs reg rf s [] copy funcs hsv
      have hrev : ∀ i, i ∈ funcIds (reviveVal funcs copy) → i ∈ funcIds s := by
        intro i hi
        rcases reviveVal_funcs funcs copy i hi with h2 | h2
        · rcases hB i h2 with h3 | h3
          · simp at h3
          · exact h3
        · rw [hA] at h2
          simp at h2
      cases copy with
      | vUndef => simp at h
      | vNull => simp at h; subst h; exact hrev
      | vBool b => simp at h; subst h; exact hrev
      | vNum q => simp at h; subst h; exact hrev
      | vStr str => simp at h; subst h; exact hrev
      | vFunc fid => simp at h; subst h; exact hrev
      | vArr xs => simp at h; subst h; exact hrev
      | vObj oid flds => simp at h; subst h; exact hrev

/-- Counterexample to C2 as stated: the outputs do alias part of the source.
Compiling a schema with an embedded function value yields an output that
contains the very same function (identity 7 here) — `schemaRefReplace`
deliberately re-attaches the collected functions by reference ("Retain all
functions which are present in the input"), so the isolation clause
"neither output aliases any part of the source, including embedded function
values" fails. -/
theorem c2_function_aliasing_counterexample :
    toJsonschema (vObj 1 [("x-validator", vFunc 7)]) []
      = .ok (vObj 0 [("x-validator", vFunc 7)]) ∧
    7 ∈ funcIds (vObj 1 [("x-validator", vFunc 7)]) ∧
    7 ∈ funcIds (vObj 0 [("x-validator", vFunc 7)]) := by
  refine ⟨rfl, ?_, ?_⟩ <;> simp [funcIds, funcIdsFields]

/-- C2 (amended): compilation in either dialect is side-effect-free on the
source and deterministic — compilation is a pure function of the source
schema and registry, so repeated compilation yields equal outputs — and each
output is a fresh deep copy of the source's object structure: every object
node of an output carries the fresh-copy identity tag `0` (JSON.parse
allocates new objects), so an output shares no object identity with a source
whose object identities are nonzero; embedded function values, however, are
retained by reference — every function identity in an output is a function
identity of the source, and the retention is actual (see the
counterexample), so the outputs do alias the source's functions. -/
theorem c2_determinism_isolation_and_function_retention :
    (∀ s reg, toOasSchema s reg = toOasSchema s reg
      ∧ toJsonschema s reg = toJsonschema s reg) ∧
    (∀ s reg out, toOasSchema s reg = .ok out →
      ∀ i, i ∈ objIds out → i = 0) ∧
    (∀ s reg out, toJsonschema s reg = .ok out →
      ∀ i, i ∈ objIds out → i = 0) ∧
    (∀ s reg out, toOasSchema s reg = .ok out → 0 ∉ objIds s →
      ∀ i, i ∈ objIds out → i ∉ objIds s) ∧
    (∀ s reg out, toJsonschema s reg = .ok out → 0 ∉ objIds s →
      ∀ i, i ∈ objIds out → i ∉ objIds s) ∧
    (∀ s reg out, toOasSchema s reg = .ok out →
      ∀ i, i ∈ funcIds out → i ∈ funcIds s) ∧
    (∀ s reg out, toJsonschema s reg = .ok out →
      ∀ i, i ∈ funcIds out → i ∈ funcIds s) := by
  have hOasFresh : ∀ s reg out, toOasSchema s reg = .ok out →
      ∀ i, i ∈ objIds out → i = 0 := by
    intro s reg out h i hi
    unfold toOasSchema at h
    cases hr : schemaRefReplace reg (fun n => "#/components/schemas/" ++ n) s with
    | error e => rw [hr] at h; simp at h
    | ok c =>
        rw [hr] at h
        simp at h
        subst h
        rcases mem_objIds_oasWalk c i hi with h2 | h2
        · exact h2
        · exact schemaRefReplace_objIds reg _ s c hr i h2
  have hJsFresh : ∀ s reg out, toJsonschema s reg = .ok out →
      ∀ i, i ∈ objIds out → i = 0 := by
    intro s reg out h i hi
    unfold toJsonschema at h
    cases hr : schemaRefReplace reg (fun n => "/" ++ n) s with
    | error e => rw [hr] at h; simp at h
    | ok c =>
        rw [hr] at h
        simp at h
        subst h
        rcases mem_objIds_jsWalk c i hi with h2 | h2
        · exact h2
        · exact schemaRefReplace_objIds reg _ s c hr i h2
  refine ⟨fun s reg => ⟨rfl, rfl⟩, hOasFresh, hJsFresh, ?_, ?_, ?_, ?_⟩
  · intro s reg out h h0 i hi hin
    exact h0 (hOasFresh s reg out h i hi ▸ hin)
  · intro s reg out h h0 i hi hin
    exact h0 (hJsFresh s reg out h i hi ▸ hin)
  · intro s reg out h i hi
    unfold toOasSchema at h
    cases hr : schemaRefReplace reg (fun n => "#/components/schemas/" ++ n) s with
    | error e => rw [hr] at h; simp at h
    | ok c =>
        rw [hr] at h
        simp at h
        subst h
        exact schemaRefReplace_funcs reg _ s c hr i (mem_funcIds_oasWalk c i hi)
  · intro s reg out h i hi
    unfold toJsonschema at h
    cases hr : schemaRefReplace reg (fun n => "/" ++ n) s with
    | error e => rw [hr] at h; simp at h
    | ok c =>
        rw [hr] at h
        simp at h
        subst h
        exact schemaRefReplace_funcs reg _ s c hr i (mem_funcIds_jsWalk c i hi)

/-- Witness for C2 (amended): at a concrete source schema (object identity 1,
embedded function identity 9), the compiled documentation output is computed,
every object node of the output carries the fresh identity 0, the output
shares no object identity with the source, and every function of the output
is a source function. -/
theorem c2_determinism_isolation_and_function_retention_witness :
    toOasSchema (vObj 1 [("title", vStr "T"), ("x-validator", vFunc 9)]) []
      = .ok (vObj 0 [("title", vStr "T")]) ∧
    (∀ i, i ∈ objIds (vObj 0 [("title", vStr "T")]) → i = 0) ∧
    0 ∉ objIds (vObj 1 [("title", vStr "T"), ("x-validator", vFunc 9)]) ∧
    (∀ i, i ∈ objIds (vObj 0 [("title", vStr "T")]) →
      i ∉ objIds (vObj 1 [("title", vStr "T"), ("x-validator", vFunc 9)])) ∧
    (∀ i, i ∈ funcIds (vObj 0 [("title", vStr "T")]) →
      i ∈ funcIds (vObj 1 [("title", vStr "T"), ("x-validator", vFunc 9)])) := by
  refine ⟨rfl, ?_, by decide, ?_, ?_⟩
  · exact c2_determinism_isolation_and_function_retention.2.1
      (vObj 1 [("title", vStr "T"), ("x-validator", vFunc 9)]) []
      (vObj 0 [("title", vStr "T")]) rfl
  · exact c2_determinism_isolation_and_function_retention.2.2.2.1
      (vObj 1 [("title", vStr "T"), ("x-validator", vFunc 9)]) []
      (vObj 0 [("title", vStr "T")]) rfl (by decide)
  · exact c2_determinism_isolation_and_function_retention.2.2.2.2.2.1
      (vObj 1 [("title", vStr "T"), ("x-validator", vFunc 9)]) []
      (vObj 0 [("title", vStr "T")]) rfl

end OasJs
